import Mathlib

/-!
RTSPStreamerServer: tile layout, colour conversion and frame pipeline.

A shallow embedding of `src/CameraSample/RtspServer/RTSPStreamerServer.cpp`.

* C `for` and `while` loops are run with an iteration budget; a loop that
  would still iterate when the budget is spent yields `none` (or the fault
  `outOfFuel`).  Loops with a bound get their budget from the bound and the
  theorems show that they return; the drain loop of `encodeWriteFrame`, which
  has no bound of its own, takes the budget as an argument.
* `int` and `size_t` values are natural numbers.  Frame dimensions are C
  `int`s, so every intermediate value of the grid computation stays below
  `dimension + maximum tile size`; no `size_t` operation wraps.
* Constants and functions declared outside this source file
  (`MAX_WIDTH_JPEG`, `copyPartImage`, the codec library, ...) are parameters.
-/

namespace RTSPStreamerServer

/-! ## Loops -/

/-- The loop `for (i = i0; i < bound; i += step) s = body(i, s)`, run for at
most `fuel` iterations. -/
def forLoop {σ : Type} (bound step : Nat) (body : Nat → σ → Option σ) :
    Nat → Nat → σ → Option σ
  | 0, i, s => if i < bound then none else some s
  | fuel + 1, i, s =>
    if i < bound then
      match body i s with
      | some s1 => forLoop bound step body fuel (i + step) s1
      | none => none
    else some s

/-! ## Tile grid of `addBigFrame` -/

/-- The rectangle `QRect(x, y, w, h)`; a default-constructed `QRect` has
width and height zero. -/
structure QRect where
  x : Nat
  y : Nat
  width : Nat
  height : Nat
deriving DecidableEq, Repr

instance : Inhabited QRect := ⟨⟨0, 0, 0, 0⟩⟩

/-- The pixel `(px, py)` lies inside the rectangle. -/
def QRect.contains (r : QRect) (px py : Nat) : Prop :=
  r.x ≤ px ∧ px < r.x + r.width ∧ r.y ≤ py ∧ py < r.y + r.height

instance (r : QRect) (px py : Nat) : Decidable (r.contains px py) := by
  unfold QRect.contains; infer_instance

/-- The value of `std::round(1. * a / b)` for `a ≥ 0`, `b > 0`: the quotient
rounded to the nearest integer, halves away from zero. -/
def roundDiv (a b : Nat) : Nat := (2 * a + b) / (2 * b)

/-- The loop `while (cnt * maxDim < dim) cnt++;`. -/
def growCount (maxDim dim : Nat) : Nat → Nat → Option Nat
  | 0, cnt => if cnt * maxDim < dim then none else some cnt
  | fuel + 1, cnt =>
    if cnt * maxDim < dim then growCount maxDim dim fuel (cnt + 1) else some cnt

/-- The locals `xOff`, `yOff`, `w`, `h` and `sizes` of `addBigFrame`. -/
structure TileVars where
  xOff : Nat
  yOff : Nat
  w : Nat
  h : Nat
  sizes : List QRect
deriving DecidableEq, Repr

/-- Body of the inner loop `for (x = 0; x < cntW; ++x)` in row `y`. -/
def tileColumnBody (mWidth MAX_WIDTH_JPEG cntW y x : Nat) (v : TileVars) : Option TileVars :=
  let w := min (mWidth - v.xOff) MAX_WIDTH_JPEG
  let k := y * cntW + x
  let sizes := v.sizes.set k ⟨v.xOff, v.yOff, w, v.h⟩
  some { v with w := w, sizes := sizes, xOff := v.xOff + w }

/-- Body of the outer loop `for (y = 0; y < cntH; ++y)`. -/
def tileRowBody (mWidth mHeight MAX_WIDTH_JPEG MAX_HEIGHT_JPEG cntW y : Nat)
    (v : TileVars) : Option TileVars :=
  let h := min (mHeight - v.yOff) MAX_HEIGHT_JPEG
  let v1 := { v with h := h, xOff := 0 }
  match forLoop cntW 1 (tileColumnBody mWidth MAX_WIDTH_JPEG cntW y) cntW 0 v1 with
  | some v2 => some { v2 with yOff := v2.yOff + v2.h }
  | none => none

/-- The grid computed by `addBigFrame`. -/
structure TileGrid where
  cntW : Nat
  cntH : Nat
  sizes : List QRect
deriving DecidableEq, Repr

/-- Lines 410-436 of `addBigFrame`: the grid shape `cntW`, `cntH` and the tile
rectangles `sizes`. -/
def tileGrid (mWidth mHeight MAX_WIDTH_JPEG MAX_HEIGHT_JPEG : Nat) : Option TileGrid :=
  match growCount MAX_WIDTH_JPEG mWidth mWidth (roundDiv mWidth MAX_WIDTH_JPEG),
        growCount MAX_HEIGHT_JPEG mHeight mHeight (mHeight / MAX_HEIGHT_JPEG) with
  | some cntW, some cntH =>
    let cntAll := cntW * cntH
    let v0 : TileVars :=
      { xOff := 0, yOff := 0,
        w := min mWidth MAX_WIDTH_JPEG, h := min mHeight MAX_HEIGHT_JPEG,
        sizes := List.replicate cntAll default }
    match forLoop cntH 1
        (tileRowBody mWidth mHeight MAX_WIDTH_JPEG MAX_HEIGHT_JPEG cntW) cntH 0 v0 with
    | some v => some ⟨cntW, cntH, v.sizes⟩
    | none => none
  | _, _ => none

/-- The quotient rounded up, `ceil(a / b)`. -/
def ceilDiv (a b : Nat) : Nat := (a + b - 1) / b

/-- The rectangle of tile `t` in a row-major grid of `cntW` columns: nominal
size, clipped at the right and bottom edge of the frame. -/
def tileRect (mWidth mHeight MAX_WIDTH_JPEG MAX_HEIGHT_JPEG cntW t : Nat) : QRect :=
  let x := min (t % cntW * MAX_WIDTH_JPEG) mWidth
  let y := min (t / cntW * MAX_HEIGHT_JPEG) mHeight
  ⟨x, y, min (mWidth - x) MAX_WIDTH_JPEG, min (mHeight - y) MAX_HEIGHT_JPEG⟩

/-! ## Colour conversion -/

/-- Byte memory behind a pointer, addressed by offset. -/
abbrev Mem := Nat → Nat

/-- The store `p[a] = v`. -/
def Mem.store (m : Mem) (a v : Nat) : Mem := fun k => if k = a then v else m k

/-- Conversion of an `int` to `unsigned char`. -/
def toByte (x : Int) : Nat := (x % 256).toNat

/- The shift `x >> 18` of a C `int` is the arithmetic shift of the compilers
the project builds with: `Int.shiftRight`, which rounds towards minus infinity. -/

/-- The luma expression `((67316 * r + 132154 * g + 25666 * b) >> 18) + 16`. -/
def lumaSample (r g b : Int) : Int := ((67316 * r + 132154 * g + 25666 * b) >>> (18 : Nat)) + 16

/-- The chroma expression `((-38856 * r - 76282 * g + 115138 * b) >> 18) + 128`. -/
def cbSample (r g b : Int) : Int := ((-38856 * r - 76282 * g + 115138 * b) >>> (18 : Nat)) + 128

/-- The chroma expression `((115138 * r - 96414 * g - 18724 * b) >> 18) + 128`. -/
def crSample (r g b : Int) : Int := ((115138 * r - 96414 * g - 18724 * b) >>> (18 : Nat)) + 128

/-- The output cursors `dst_y`, `dst_u`, `dst_v` (offsets from `yuv`) and the
bytes behind `yuv`. -/
structure YuvVars where
  dst_y : Nat
  dst_u : Nat
  dst_v : Nat
  yuv : Mem

/-- The statement `*dst_y++ = val`. -/
def YuvVars.putY (v : YuvVars) (val : Int) : YuvVars :=
  { v with yuv := v.yuv.store v.dst_y (toByte val), dst_y := v.dst_y + 1 }

/-- The statement `*dst_u++ = val`. -/
def YuvVars.putU (v : YuvVars) (val : Int) : YuvVars :=
  { v with yuv := v.yuv.store v.dst_u (toByte val), dst_u := v.dst_u + 1 }

/-- The statement `*dst_v++ = val`. -/
def YuvVars.putV (v : YuvVars) (val : Int) : YuvVars :=
  { v with yuv := v.yuv.store v.dst_v (toByte val), dst_v := v.dst_v + 1 }

/-- The function `RGB2Yuv420p(yuv, rgb, width, height)`; the result is the
content of `yuv` at return. -/
def RGB2Yuv420p (yuv rgb : Mem) (width height : Nat) : Option Mem :=
  let image_size := width * height
  let v0 : YuvVars :=
    { dst_y := 0, dst_u := image_size, dst_v := image_size * 5 / 4, yuv := yuv }
  -- Y plane
  match forLoop image_size 1 (fun i v =>
      some (v.putY (lumaSample (rgb (3 * i)) (rgb (3 * i + 1)) (rgb (3 * i + 2)))))
      image_size 0 v0 with
  | none => none
  | some v1 =>
    -- U and V plane
    match forLoop height 2 (fun y v =>
        forLoop width 2 (fun x v =>
          some ((v.putU
              (cbSample (rgb (3 * (y * width + x))) (rgb (3 * (y * width + x) + 1))
                (rgb (3 * (y * width + x) + 2)))).putV
              (crSample (rgb (3 * (y * width + x))) (rgb (3 * (y * width + x) + 1))
                (rgb (3 * (y * width + x) + 2)))))
          width 0 v)
        height 0 v1 with
    | none => none
    | some v2 => some v2.yuv

/-- The function `Gray2Yuv420p(yuv, gray, width, height)`; the result is the
content of `yuv` at return. -/
def Gray2Yuv420p (yuv gray : Mem) (width height : Nat) : Option Mem :=
  let image_size := width * height
  let v0 : YuvVars :=
    { dst_y := 0, dst_u := image_size, dst_v := image_size * 5 / 4, yuv := yuv }
  -- Y plane
  match forLoop image_size 1 (fun i v =>
      some (v.putY (lumaSample (gray i) (gray i) (gray i))))
      image_size 0 v0 with
  | none => none
  | some v1 =>
    -- U and V plane
    match forLoop height 2 (fun y v =>
        forLoop width 2 (fun x v =>
          some ((v.putU
              (cbSample (gray (y * width + x)) (gray (y * width + x)) (gray (y * width + x)))).putV
              (crSample (gray (y * width + x)) (gray (y * width + x)) (gray (y * width + x)))))
          width 0 v)
        height 0 v1 with
    | none => none
    | some v2 => some v2.yuv

/-- The three loops shared by `RGB2Yuv420p` and `Gray2Yuv420p`, with the
stored expressions given per pixel index. -/
def planarLoops (fy fu fv : Nat → Int) (yuv : Mem) (width height : Nat) : Option Mem :=
  match forLoop (width * height) 1 (fun i (v : YuvVars) => some (v.putY (fy i)))
      (width * height) 0
      { dst_y := 0, dst_u := width * height, dst_v := width * height * 5 / 4, yuv := yuv } with
  | none => none
  | some v1 =>
    match forLoop height 2 (fun y (v : YuvVars) =>
        forLoop width 2 (fun x (v : YuvVars) =>
          some ((v.putU (fu (y * width + x))).putV (fv (y * width + x)))) width 0 v)
        height 0 v1 with
    | none => none
    | some v2 => some v2.yuv

/-- Pixel index read by the `j`-th chroma iteration: rows and columns advance
in steps of two, `(width + 1) / 2` iterations per row. -/
def chromaPixel (width j : Nat) : Nat :=
  2 * (j / ((width + 1) / 2)) * width + 2 * (j % ((width + 1) / 2))

/-- Content of the output after `n` chroma iterations that write the U cursor
from `du` and the V cursor from `dv ≥ du`: at an address reached by both
cursors the later store wins. -/
def chromaMem (fu fv : Nat → Int) (width du dv : Nat) (m0 : Mem) (n : Nat) : Mem :=
  fun a =>
    if du ≤ a ∧ a < du + n ∧ (du < dv ∨ ¬ (dv ≤ a ∧ a < dv + n)) then
      toByte (fu (chromaPixel width (a - du)))
    else if dv ≤ a ∧ a < dv + n then
      toByte (fv (chromaPixel width (a - dv)))
    else m0 a

/-! ## Server state -/

/-- The codec identifiers the server compares `mCodecId` with. -/
inductive AVCodecID where
  | AV_CODEC_ID_H264
  | AV_CODEC_ID_MJPEG
  | AV_CODEC_ID_NONE
deriving DecidableEq, Repr

/-- A connected client, by identity. -/
abbrev TcpClient := Nat

/-- The fields of `AVPacket` the server sets: `pts` and the `size` bytes
behind `data`. -/
structure AVPacket where
  pts : Nat
  data : List Nat
deriving DecidableEq, Repr

/-- The fields of `AVFrame` the server sets. -/
structure AVFrame where
  width : Nat
  height : Nat
  pts : Nat
  data : Mem

/-- How a call left the function: a `throw`, or a loop that did not stop
within its iteration budget. -/
inductive Fault where
  | thrown
  | outOfFuel
deriving DecidableEq, Repr

/-- Constants and functions the server uses but does not define: the
constants of `RTSPStreamerServer.h`, the codec library working on an encoder
context of type `ε`, `copyPartImage` of `vutils.h` and
`rtp_packet_add_header::setHeader`.  `avcodec_receive_packet` yields the
return code and the payload of the packet; `setHeader` gets the packet bytes
and the offset of the pointer it is called with. -/
structure Env (ε : Type) where
  MAX_WIDTH_JPEG : Nat
  MAX_HEIGHT_JPEG : Nat
  MAX_WIDTH_RTP_JPEG : Nat
  MAX_HEIGHT_RTP_JPEG : Nat
  sizeof_header : Nat
  AVERROR_EAGAIN : Int
  avcodec_send_frame : ε → AVFrame → Int × ε
  avcodec_receive_packet : ε → Int × List Nat × ε
  av_image_fill_arrays : Nat → Nat → Int
  copyPartImage : Mem → Nat → Nat → Nat → Nat → Nat → Nat → Mem → Mem
  setHeader : List Nat → Int → Nat → Nat → Nat → Nat → Nat → Nat → List Nat

/-- The members of `RTSPStreamerServer` read or written by the frame
pipeline, and a record of what the server did: `ptsLog` lists the `pts` fields
of the frames and packets the server stamped, `sent` the `sendpkt` calls, `nSubmitted` the `addFrame`
calls and `nHanded` the frames the worker passed to `addInternalFrame`, each
oldest first. -/
structure Server (ε : Type) where
  mWidth : Nat
  mHeight : Nat
  mChannels : Nat
  mCodecId : AVCodecID
  mUseCustomEncodeH264 : Bool
  mUseCustomEncodeJpeg : Bool
  mMultithreading : Bool
  mIsInitialized : Bool
  mDone : Bool
  mClients : List TcpClient
  mFramesProcessed : Nat
  mFrameBuffers : List Mem
  mMaxFrameBuffers : Nat
  mFrameThread : Bool
  mEncoderBuffer : Mem
  mData : List Mem
  mJpegData : List (List Nat)
  mJpegEncode : Nat → Mem → Nat → Nat → Nat → List Nat
  mCtx : ε
  ptsLog : List Nat
  sent : List (TcpClient × AVPacket)
  nSubmitted : Nat
  nHanded : Nat

/-- The function `sendPkt`: `c->sendpkt(pkt)` for every client, in the order
of `mClients`. -/
def sendPkt {ε : Type} (s : Server ε) (pkt : AVPacket) : Server ε :=
  s.mClients.foldl (fun s1 c => { s1 with sent := s1.sent ++ [(c, pkt)] }) s

/-- The function `addFrame`: the push under `mFrameMutex`, the lazy start of
the worker thread, and the return value. -/
def addFrame {ε : Type} (s : Server ε) (rgbPtr : Mem) : Bool × Server ε :=
  let s0 := { s with nSubmitted := s.nSubmitted + 1 }
  let s1 :=
    if s0.mFrameBuffers.length < s0.mMaxFrameBuffers then
      { s0 with mFrameBuffers := s0.mFrameBuffers ++ [rgbPtr] }
    else s0
  let s2 := if !s1.mFrameThread then { s1 with mFrameThread := true } else s1
  (true, s2)

/-- The loop `do { ... } while (ret == AVERROR(EAGAIN))` of
`encodeWriteFrame`, after the first `avcodec_send_frame` succeeded. -/
def encodeWriteLoop {ε : Type} (env : Env ε) (frame : AVFrame) :
    Nat → Server ε → Except Fault (Server ε)
  | 0, _ => .error .outOfFuel
  | fuel + 1, s =>
    -- ret = avcodec_receive_packet(mCtx, &enc_pkt)
    let r := env.avcodec_receive_packet s.mCtx
    let s1 := { s with mCtx := r.2.2 }
    if 0 ≤ r.1 then
      -- enc_pkt.pts = frame->pts; sendPkt(&enc_pkt); return;
      .ok (sendPkt s1 { pts := frame.pts, data := r.2.1 })
    else if r.1 = env.AVERROR_EAGAIN then
      -- ret1 = avcodec_send_frame(mCtx, frame)
      encodeWriteLoop env frame fuel
        { s1 with mCtx := (env.avcodec_send_frame s1.mCtx frame).2 }
    else .ok s1

/-- The function `encodeWriteFrame`. -/
def encodeWriteFrame {ε : Type} (env : Env ε) (fuel : Nat) (s : Server ε)
    (frame : AVFrame) : Except Fault (Server ε) :=
  let r := env.avcodec_send_frame s.mCtx frame
  let s1 := { s with mCtx := r.2 }
  if r.1 < 0 then .ok s1 else encodeWriteLoop env frame fuel s1

/-- The end of `addInternalFrame`: `if (ret == 0) { mFramesProcessed++; return true; }
return false;`. -/
def finishFrame {ε : Type} (ret : Int) (s : Server ε) : Bool × Server ε :=
  if ret = 0 then (true, { s with mFramesProcessed := s.mFramesProcessed + 1 })
  else (false, s)

/-- The first branch of `addInternalFrame` (lines 556-574): conversion to
planar YUV and the codec library. -/
def encodeWithCodec {ε : Type} (env : Env ε) (fuel : Nat) (s : Server ε) (rgbPtr : Mem) :
    Except Fault (Bool × Server ε) :=
  -- frm->pts = mFramesProcessed++
  let pts := s.mFramesProcessed
  let s1 := { s with mFramesProcessed := s.mFramesProcessed + 1 }
  let converted :=
    if s1.mChannels = 1 then Gray2Yuv420p s1.mEncoderBuffer rgbPtr s1.mWidth s1.mHeight
    else RGB2Yuv420p s1.mEncoderBuffer rgbPtr s1.mWidth s1.mHeight
  match converted with
  | none => .error .outOfFuel
  | some buf =>
    let s2 := { s1 with mEncoderBuffer := buf }
    let frm : AVFrame :=
      { width := s2.mWidth, height := s2.mHeight, pts := pts, data := s2.mEncoderBuffer }
    -- the record takes the value the frame carries
    let s2 := { s2 with ptsLog := s2.ptsLog ++ [frm.pts] }
    let ret := env.av_image_fill_arrays s2.mWidth s2.mHeight
    match encodeWriteFrame env fuel s2 frm with
    | .error e => .error e
    | .ok s3 => .ok (finishFrame ret s3)

/-- The second branch of `addInternalFrame` (lines 578-600): the pluggable
JPEG function on the raw buffer. -/
def encodeWithJpegFunction {ε : Type} (s : Server ε) (rgbPtr : Mem) :
    Except Fault (Bool × Server ε) :=
  if s.mCodecId = .AV_CODEC_ID_MJPEG then
    let t := 0
    let jpegData := if s.mJpegData.isEmpty then [[]] else s.mJpegData
    let jpegData := jpegData.set t (s.mJpegEncode t rgbPtr s.mWidth s.mHeight s.mChannels)
    let s1 := { s with mJpegData := jpegData }
    -- pkt.pts = mFramesProcessed++
    let pts := s1.mFramesProcessed
    let s2 := { s1 with mFramesProcessed := s1.mFramesProcessed + 1 }
    let pkt : AVPacket := { pts := pts, data := jpegData.getD t [] }
    -- the record takes the value the packet carries
    let s2 := { s2 with ptsLog := s2.ptsLog ++ [pkt.pts] }
    .ok (finishFrame 0 (sendPkt s2 pkt))
  else .error .thrown

/-- The function `addInternalFrame`. -/
def addInternalFrame {ε : Type} (env : Env ε) (fuel : Nat) (s : Server ε) (rgbPtr : Mem) :
    Except Fault (Bool × Server ε) :=
  if !s.mIsInitialized || s.mClients.isEmpty then .ok (false, s)
  else if (s.mCodecId = .AV_CODEC_ID_H264 ∧ s.mUseCustomEncodeH264 = false)
      ∨ (s.mCodecId = .AV_CODEC_ID_MJPEG ∧ s.mUseCustomEncodeJpeg = false) then
    encodeWithCodec env fuel s rgbPtr
  else encodeWithJpegFunction s rgbPtr

/-- The worker iteration of `doFrameBuffer` on a non-empty queue: `front`,
`pop_front` under the mutex, then `addInternalFrame`; on an empty queue the
worker sleeps, and with `mDone` set it has left the loop. -/
def doFrameBufferStep {ε : Type} (env : Env ε) (fuel : Nat) (s : Server ε) :
    Except Fault (Server ε) :=
  if s.mDone then .ok s
  else
    match s.mFrameBuffers with
    | [] => .ok s
    | fb :: rest =>
      let s1 := { s with mFrameBuffers := rest, nHanded := s.nHanded + 1 }
      match addInternalFrame env fuel s1 fb with
      | .error e => .error e
      | .ok (_, s2) => .ok s2

/-- The lambda `fun` of `addBigFrame`: the packet of tile `t`. -/
def tilePacket {ε : Type} (env : Env ε) (s : Server ε) (cntW cntH : Nat) (mData : List Mem)
    (t : Nat) : List Nat × AVPacket :=
  let jpeg := s.mJpegEncode t (mData.getD t (fun _ => 0)) env.MAX_WIDTH_JPEG
    env.MAX_HEIGHT_JPEG s.mChannels
  -- av_new_packet(&pkts[t], mJpegData[t].size + sizeof_header)
  let size := jpeg.length + env.sizeof_header
  let x := t % cntW % 256
  let y := t / cntW % 256
  -- std::copy of the payload to the start of the packet
  let data := jpeg ++ List.replicate env.sizeof_header 0
  let data := env.setHeader data ((size : Int) - env.sizeof_header - 2) x y cntW cntH
    s.mWidth s.mHeight
  (jpeg, { pts := s.mFramesProcessed + t, data := data })

/-- Lines 413-504 of `addBigFrame`, for the grid `g`: the tile buffers, the
tile packets, their fan-out in grid order and the counter update.  The tile
packets are built one after the other; with `mMultithreading` the source
builds them in threads that write disjoint slots and are joined before the
first packet is sent. -/
def tileBatch {ε : Type} (env : Env ε) (s : Server ε) (rgbPtr : Mem) (linesize : Nat)
    (g : TileGrid) : Server ε :=
  let cntAll := g.cntW * g.cntH
  let linesize := if linesize = 0 then s.mWidth * s.mChannels else linesize
  let mData := (List.range cntAll).map fun k =>
    env.copyPartImage rgbPtr (g.sizes.getD k default).x (g.sizes.getD k default).y
      s.mChannels linesize (g.sizes.getD k default).height
      (env.MAX_WIDTH_JPEG * s.mChannels) ((s.mData.getD k (fun _ => 0)))
  let built := (List.range cntAll).map (tilePacket env s g.cntW g.cntH mData)
  let pkts := built.map (·.2)
  let s1 := { s with mData := mData, mJpegData := built.map (·.1),
                     ptsLog := s.ptsLog ++ pkts.map (·.pts) }
  let s2 := pkts.foldl sendPkt s1
  { s2 with mFramesProcessed := s2.mFramesProcessed + (cntAll + 1) }

/-- The function `addBigFrame`. -/
def addBigFrame {ε : Type} (env : Env ε) (s : Server ε) (rgbPtr : Mem) (linesize : Nat) :
    Except Fault (Bool × Server ε) :=
  if !s.mIsInitialized || s.mClients.isEmpty then .ok (false, s)
  else if s.mCodecId ≠ .AV_CODEC_ID_MJPEG
      ∨ (s.mWidth ≤ env.MAX_WIDTH_RTP_JPEG ∧ s.mHeight ≤ env.MAX_HEIGHT_RTP_JPEG) then
    .ok (addFrame s rgbPtr)
  else
    match tileGrid s.mWidth s.mHeight env.MAX_WIDTH_JPEG env.MAX_HEIGHT_JPEG with
    | none => .error .outOfFuel
    | some g => .ok (true, tileBatch env s rgbPtr linesize g)

/-! ## Runs of the pipeline -/

/-- A step of the buffered pipeline: the producer calls `addFrame`, or the
worker thread runs one iteration of `doFrameBuffer`. -/
inductive PipelineStep where
  | submit (rgbPtr : Mem)
  | work (fuel : Nat)

/-- The server after a sequence of pipeline steps. -/
def runPipeline {ε : Type} (env : Env ε) : List PipelineStep → Server ε → Except Fault (Server ε)
  | [], s => .ok s
  | .submit rgbPtr :: rest, s => runPipeline env rest (addFrame s rgbPtr).2
  | .work fuel :: rest, s =>
    match doFrameBufferStep env fuel s with
    | .error e => .error e
    | .ok s1 => runPipeline env rest s1

/-- A call of one of the two encode entry points. -/
inductive FrameCall where
  | internal (fuel : Nat) (rgbPtr : Mem)
  | big (rgbPtr : Mem) (linesize : Nat)

/-- The server after a sequence of encode calls. -/
def runCalls {ε : Type} (env : Env ε) : List FrameCall → Server ε → Except Fault (Server ε)
  | [], s => .ok s
  | .internal fuel rgbPtr :: rest, s =>
    match addInternalFrame env fuel s rgbPtr with
    | .error e => .error e
    | .ok (_, s1) => runCalls env rest s1
  | .big rgbPtr linesize :: rest, s =>
    match addBigFrame env s rgbPtr linesize with
    | .error e => .error e
    | .ok (_, s1) => runCalls env rest s1

/-! ## A concrete server for example runs -/

/-- An environment with 640x480 tiles whose encoder returns one empty packet
per frame and whose helpers leave their buffers unchanged. -/
def sampleEnv : Env Unit where
  MAX_WIDTH_JPEG := 640
  MAX_HEIGHT_JPEG := 480
  MAX_WIDTH_RTP_JPEG := 640
  MAX_HEIGHT_RTP_JPEG := 480
  sizeof_header := 8
  AVERROR_EAGAIN := -11
  avcodec_send_frame := fun ctx _ => (0, ctx)
  avcodec_receive_packet := fun ctx => (0, [], ctx)
  av_image_fill_arrays := fun w h => (w * h * 3 / 2 : Nat)
  copyPartImage := fun _ _ _ _ _ _ _ dst => dst
  setHeader := fun data _ _ _ _ _ _ _ => data

/-- A freshly constructed MJPEG server of the given frame size and queue
capacity with the given clients, using the custom JPEG function (here one
that returns the tile index as its only byte). -/
def sampleServer (width height cap : Nat) (clients : List TcpClient) : Server Unit where
  mWidth := width
  mHeight := height
  mChannels := 3
  mCodecId := .AV_CODEC_ID_MJPEG
  mUseCustomEncodeH264 := false
  mUseCustomEncodeJpeg := true
  mMultithreading := false
  mIsInitialized := !clients.isEmpty
  mDone := false
  mClients := clients
  mFramesProcessed := 0
  mFrameBuffers := []
  mMaxFrameBuffers := cap
  mFrameThread := false
  mEncoderBuffer := fun _ => 0
  mData := []
  mJpegData := []
  mJpegEncode := fun t _ _ _ _ => [t]
  mCtx := ()
  ptsLog := []
  sent := []
  nSubmitted := 0
  nHanded := 0

/-- The members no codec or client call touches: the frame counter, the
`pts` record, the frame queue with its capacity, and the two call counters. -/
def Server.core {ε : Type} (s : Server ε) :
    Nat × List Nat × List Mem × Nat × Nat × Nat :=
  (s.mFramesProcessed, s.ptsLog, s.mFrameBuffers, s.mMaxFrameBuffers, s.nSubmitted, s.nHanded)

/-- What a returning encode call does to the core: queue and call counters
unchanged; either no `pts` assigned and the counter unchanged, or the current
counter value assigned and the counter larger afterwards. -/
def EncodeEffect {ε : Type} (s s1 : Server ε) : Prop :=
  s1.mFrameBuffers = s.mFrameBuffers ∧ s1.mMaxFrameBuffers = s.mMaxFrameBuffers ∧
  s1.nSubmitted = s.nSubmitted ∧ s1.nHanded = s.nHanded ∧
  ((s1.ptsLog = s.ptsLog ∧ s1.mFramesProcessed = s.mFramesProcessed) ∨
    (s1.ptsLog = s.ptsLog ++ [s.mFramesProcessed] ∧
      s.mFramesProcessed < s1.mFramesProcessed))

/-! ## Construction and `startServer` -/

/-- The test `hay.startsWith(needle)` on the characters of a `QString`. -/
def startsWith : List Char → List Char → Bool
  | [], _ => true
  | _ :: _, [] => false
  | a :: as, b :: bs => a == b && startsWith as bs

/-- The search behind `QString::indexOf(needle)`: the index of the first
occurrence of `needle` at or after the current position `i`, or `-1`. -/
def indexOfFrom (needle : List Char) : List Char → Nat → Int
  | [], i => if needle.isEmpty then (i : Int) else -1
  | c :: cs, i =>
    if startsWith needle (c :: cs) then (i : Int) else indexOfFrom needle cs (i + 1)

/-- The call `hay.indexOf(needle)` of `QString`. -/
def indexOf (needle hay : List Char) : Int := indexOfFrom needle hay 0

/-- The two values of `EncoderType` the constructor tests. -/
inductive EncoderType where
  | etNVENC
  | etJPEG
deriving DecidableEq, Repr

/-- The codec library as the constructor uses it: the encoder lookup by name
(the `id` of the codec found, if any), the return code of `avcodec_open2` for
a codec, context width, context height and bit rate, and the text that fills
the placeholders of the open-failure message. -/
structure CodecLib where
  avcodec_find_encoder_by_name : List Char → Option AVCodecID
  avcodec_open2 : AVCodecID → Nat → Nat → Nat → Int
  errorText : Int → List Char

/-- The members of `RTSPStreamerServer` written by the constructor and by
`startServer`.  `mThread` tells whether the server thread has been created
and started, `doServerQueued` whether the call of `doServer`, which creates
the listener, has been posted to it.  Members start as `false`, empty or
zero. -/
structure Control where
  mWidth : Nat
  mHeight : Nat
  mChannels : Nat
  mEncoderType : EncoderType
  mBitrate : Nat
  mUrl : List Char
  mCodecId : AVCodecID
  mIsError : Bool
  mErrStr : List Char
  mHost : List Char
  mPort : Nat
  mThread : Bool
  doServerQueued : Bool
deriving DecidableEq, Repr

/-- The accessor `isError()`. -/
def Control.isError (c : Control) : Bool := c.mIsError

/-- The accessor `errorStr()`. -/
def Control.errorStr (c : Control) : List Char := c.mErrStr

/-- The constructor `RTSPStreamerServer(width, height, channels, url, encType,
bitrate)` up to the end of the codec set-up. -/
def construct {ε : Type} (env : Env ε) (lib : CodecLib) (width height channels : Nat)
    (url : List Char) (encType : EncoderType) (bitrate : Nat) : Control :=
  let c0 : Control :=
    { mWidth := width, mHeight := height, mChannels := channels, mEncoderType := encType,
      mBitrate := bitrate, mUrl := url, mCodecId := .AV_CODEC_ID_NONE, mIsError := false,
      mErrStr := [], mHost := [], mPort := 0, mThread := false, doServerQueued := false }
  let mCodec : Option AVCodecID :=
    match encType with
    | .etNVENC =>
      match lib.avcodec_find_encoder_by_name "h264_nvenc".toList with
      | some codec => some codec
      | none => lib.avcodec_find_encoder_by_name "libx264".toList
    | .etJPEG => lib.avcodec_find_encoder_by_name "mjpeg".toList
  match mCodec with
  | none => { c0 with mIsError := true, mErrStr := "Codec not found".toList }
  | some codec =>
    let c1 := { c0 with mCodecId := codec }
    let clamp := codec = .AV_CODEC_ID_MJPEG ∧
      (env.MAX_WIDTH_RTP_JPEG < width ∨ env.MAX_HEIGHT_RTP_JPEG < height)
    let ctxWidth := if clamp then env.MAX_WIDTH_JPEG else width
    let ctxHeight := if clamp then env.MAX_HEIGHT_JPEG else height
    let ret := lib.avcodec_open2 codec ctxWidth ctxHeight bitrate
    if ret < 0 then
      { c1 with mErrStr := "avcodec_open2 failed, code: ".toList ++ lib.errorText ret,
                mIsError := true }
    else c1

/-- Lines 258-266 of `startServer`: the port text is what precedes the first
`/` of the text after the `:`, or all of it when there is no `/`. -/
def portText (url : List Char) : List Char :=
  let pos := indexOf "/".toList url
  if 0 ≤ pos then url.take pos.toNat else url

/-- The function `startServer`; `toUInt` is `QString::toUInt`, which yields 0
when the text is not an unsigned number. -/
def startServer (toUInt : List Char → Nat) (c : Control) : Bool × Control :=
  if c.mIsError then (false, c)
  else if c.mWidth = 0 ∨ c.mHeight = 0 ∨ c.mChannels = 0 ∨ c.mUrl.isEmpty then (false, c)
  else
    let url := c.mUrl
    if 0 ≤ indexOf "rtsp://".toList url then
      let url := url.drop 7
      let pos := indexOf ":".toList url
      if 0 ≤ pos then
        let addr := url.take pos.toNat
        let url := url.drop (pos.toNat + 1)
        let port := portText url
        let c1 := { c with mHost := addr, mPort := toUInt port }
        if c1.mPort = 0 then (false, { c1 with mIsError := true })
        else (true, { c1 with mThread := true, doServerQueued := true })
      else (false, { c with mIsError := true })
    else (false, { c with mIsError := true })

/-- A decimal reading of `QString::toUInt` for example runs: the value of a
non-empty text of digits below `2 ^ 32`, else 0. -/
def decimalToUInt (text : List Char) : Nat :=
  if text.isEmpty ∨ ¬ text.all Char.isDigit then 0
  else
    let v := text.foldl (fun acc ch => 10 * acc + (ch.toNat - 48)) 0
    if v < 4294967296 then v else 0

/-- A codec library in which every encoder is found and opens. -/
def sampleLib : CodecLib where
  avcodec_find_encoder_by_name := fun name =>
    if name = "mjpeg".toList then some .AV_CODEC_ID_MJPEG else some .AV_CODEC_ID_H264
  avcodec_open2 := fun _ _ _ _ => 0
  errorText := fun _ => []

/-- The optional `/path` part of a URL: nothing, or `/` followed by the
path. -/
def pathTail : Option (List Char) → List Char
  | none => []
  | some path => '/' :: path

/-! ## Client set -/

/-- The slot `removeClient(client)`: the first entry equal to `client` is
erased from `mClients`. -/
def removeClient {ε : Type} (s : Server ε) (client : TcpClient) : Server ε :=
  { s with mClients := s.mClients.erase client }

/-- The slot `newConnection()` for an accepted socket: the client is appended
to `mClients` and `mIsInitialized` is set. -/
def newConnection {ε : Type} (s : Server ε) (client : TcpClient) : Server ε :=
  { s with mClients := s.mClients ++ [client], mIsInitialized := true }

/-- The function `sendPkt` with the outcome of every `c->sendpkt(pkt)` call
made explicit.  `TcpClient` is declared outside this source file: `sendpkt`
tells, from the calls made so far, the client and the packet, whether the
send succeeds.  The loop body is the expression statement `c->sendpkt(pkt);`,
so the outcome is dropped.  The result is the server after the loop and the
calls the loop made, each with its outcome, oldest first. -/
def sendPktCalls {ε : Type}
    (sendpkt : List (TcpClient × AVPacket) → TcpClient → AVPacket → Bool)
    (s : Server ε) (pkt : AVPacket) : Server ε × List (TcpClient × Bool) :=
  s.mClients.foldl
    (fun acc c =>
      ({ acc.1 with sent := acc.1.sent ++ [(c, pkt)] },
        acc.2 ++ [(c, sendpkt acc.1.sent c pkt)]))
    (s, [])

/-- An environment as `sampleEnv` whose `setHeader` returns the six values it
is called with in place of the packet bytes, so that a run shows the arguments
of the call. -/
def probeEnv : Env Unit :=
  { sampleEnv with
    setHeader := fun _ _ x y cntW cntH width height => [x, y, cntW, cntH, width, height] }

/-! ## Encoder oracle -/

/-- An encoder as an oracle: `avcodec_send_frame` accepts the frame and queues
`k` packets for it (packet `i` has the payload `[pts, i]`);
`avcodec_receive_packet` hands out one queued packet per call and reports
`AVERROR(EAGAIN)` when none is left. -/
def oracleEnv (k : Nat) : Env (List (List Nat)) where
  MAX_WIDTH_JPEG := 640
  MAX_HEIGHT_JPEG := 480
  MAX_WIDTH_RTP_JPEG := 640
  MAX_HEIGHT_RTP_JPEG := 480
  sizeof_header := 8
  AVERROR_EAGAIN := -11
  avcodec_send_frame := fun ctx frame => (0, ctx ++ (List.range k).map (fun i => [frame.pts, i]))
  avcodec_receive_packet := fun ctx =>
    match ctx with
    | [] => (-11, [], [])
    | p :: rest => (0, p, rest)
  av_image_fill_arrays := fun w h => (w * h * 3 / 2 : Nat)
  copyPartImage := fun _ _ _ _ _ _ _ dst => dst
  setHeader := fun data _ _ _ _ _ _ _ => data

/-- A 2x2 H.264 server on the codec path with the given clients and an empty
encoder. -/
def oracleServer (clients : List TcpClient) : Server (List (List Nat)) where
  mWidth := 2
  mHeight := 2
  mChannels := 3
  mCodecId := .AV_CODEC_ID_H264
  mUseCustomEncodeH264 := false
  mUseCustomEncodeJpeg := false
  mMultithreading := false
  mIsInitialized := !clients.isEmpty
  mDone := false
  mClients := clients
  mFramesProcessed := 0
  mFrameBuffers := []
  mMaxFrameBuffers := 5
  mFrameThread := false
  mEncoderBuffer := fun _ => 0
  mData := []
  mJpegData := []
  mJpegEncode := fun t _ _ _ _ => [t]
  mCtx := []
  ptsLog := []
  sent := []
  nSubmitted := 0
  nHanded := 0

/-! ## Value ranges -/

/-- The value fits a signed 32-bit `int`. -/
def fitsInt32 (x : Int) : Prop := -2147483648 ≤ x ∧ x ≤ 2147483647

/-- The last branch of `addBigFrame` (from line 410): the tile grid and the
tile batch. -/
def addBigFrameTiled {ε : Type} (env : Env ε) (s : Server ε) (rgbPtr : Mem) (linesize : Nat) :
    Except Fault (Bool × Server ε) :=
  match tileGrid s.mWidth s.mHeight env.MAX_WIDTH_JPEG env.MAX_HEIGHT_JPEG with
  | none => .error .outOfFuel
  | some g => .ok (true, tileBatch env s rgbPtr linesize g)

/-! # Theorems -/

/-! ## Loop rule -/

/-- Invariant rule for `forLoop`: an invariant indexed by the number of
completed iterations, preserved by the body while the loop condition holds,
holds at exit, and the loop returns when the budget covers the range. -/
theorem forLoop_inv {σ : Type} (bound step i0 : Nat)
    (body : Nat → σ → Option σ) (Inv : Nat → σ → Prop)
    (hbody : ∀ j s, i0 + j * step < bound → Inv j s →
      ∃ s1, body (i0 + j * step) s = some s1 ∧ Inv (j + 1) s1) :
    ∀ (fuel j : Nat) (s : σ), bound ≤ i0 + j * step + fuel * step → Inv j s →
      ∃ s1 n, forLoop bound step body fuel (i0 + j * step) s = some s1 ∧ Inv n s1 ∧
        j ≤ n ∧ bound ≤ i0 + n * step ∧ (n = j ∨ i0 + (n - 1) * step < bound) := by
  intro fuel
  induction fuel with
  | zero =>
    intro j s hf hI
    refine ⟨s, j, ?_, hI, le_refl _, by omega, Or.inl rfl⟩
    have : ¬ (i0 + j * step < bound) := by omega
    simp [forLoop, this]
  | succ fuel ih =>
    intro j s hf hI
    by_cases hc : i0 + j * step < bound
    · obtain ⟨s1, hb, hI1⟩ := hbody j s hc hI
      have hidx : i0 + j * step + step = i0 + (j + 1) * step := by rw [Nat.succ_mul]; omega
      have hf1 : bound ≤ i0 + (j + 1) * step + fuel * step := by
        rw [Nat.succ_mul] at hf; rw [Nat.succ_mul]; omega
      obtain ⟨s2, n, hrun, hIn, hjn, hbn, hlast⟩ := ih (j + 1) s1 hf1 hI1
      refine ⟨s2, n, ?_, hIn, by omega, hbn, ?_⟩
      · simp only [forLoop, hc, if_true, hb, hidx]; exact hrun
      · rcases hlast with h | h
        · right; subst h; simpa using hc
        · exact Or.inr h
    · refine ⟨s, j, ?_, hI, le_refl _, by omega, Or.inl rfl⟩
      simp [forLoop, hc]

/-- Unit-stride loops from zero: the invariant holds at `bound` on exit. -/
theorem forLoop_inv_unit {σ : Type} (bound : Nat)
    (body : Nat → σ → Option σ) (Inv : Nat → σ → Prop) (s : σ) (h0 : Inv 0 s)
    (hbody : ∀ j s, j < bound → Inv j s → ∃ s1, body j s = some s1 ∧ Inv (j + 1) s1) :
    ∃ s1, forLoop bound 1 body bound 0 s = some s1 ∧ Inv bound s1 := by
  have h := forLoop_inv bound 1 0 body Inv
    (by intro j s hj hI; simp only [Nat.zero_add, Nat.mul_one] at hj ⊢; exact hbody j s hj hI)
    bound 0 s (by omega) h0
  obtain ⟨s1, n, hrun, hI, -, hb, hl⟩ := h
  have hn : n = bound := by omega
  subst hn
  exact ⟨s1, by simpa using hrun, hI⟩

/-! ## Grid shape -/

theorem le_ceilDiv_mul (a b : Nat) (hb : 0 < b) : a ≤ ceilDiv a b * b := by
  have h := Nat.lt_div_mul_add (a := a + b - 1) hb
  unfold ceilDiv; omega

theorem ceilDiv_mul_lt (a b : Nat) (hb : 0 < b) : ceilDiv a b * b < a + b := by
  have h := Nat.div_mul_le_self (a + b - 1) b
  unfold ceilDiv; omega

theorem ceilDiv_unique (a b k : Nat) (h1 : a ≤ k * b) (h2 : k * b < a + b) :
    k = ceilDiv a b := by
  unfold ceilDiv
  symm
  apply Nat.div_eq_of_lt_le
  · omega
  · rw [Nat.succ_mul]; omega

theorem ceilDiv_pos (a b : Nat) (ha : 0 < a) (hb : 0 < b) : 0 < ceilDiv a b := by
  have h := le_ceilDiv_mul a b hb
  rcases Nat.eq_zero_or_pos (ceilDiv a b) with h0 | h0
  · rw [h0] at h; omega
  · exact h0

theorem roundDiv_le_ceilDiv (a b : Nat) (hb : 0 < b) : roundDiv a b ≤ ceilDiv a b := by
  have h := le_ceilDiv_mul a b hb
  have : roundDiv a b < ceilDiv a b + 1 := by
    unfold roundDiv
    rw [Nat.div_lt_iff_lt_mul (by omega)]
    have e : (ceilDiv a b + 1) * (2 * b) = 2 * (ceilDiv a b * b) + 2 * b := by ring
    omega
  omega

theorem floorDiv_le_ceilDiv (a b : Nat) (hb : 0 < b) : a / b ≤ ceilDiv a b := by
  unfold ceilDiv
  exact Nat.div_le_div_right (by omega)

/-- The loop `while (cnt * maxDim < dim) cnt++` started at or below the
ceiling stops at the ceiling, within `dim` iterations. -/
theorem growCount_eq (maxDim dim : Nat) (hM : 0 < maxDim) :
    ∀ fuel cnt, dim ≤ cnt + fuel → cnt ≤ ceilDiv dim maxDim →
      growCount maxDim dim fuel cnt = some (ceilDiv dim maxDim) := by
  have hge := le_ceilDiv_mul dim maxDim hM
  have hlt := ceilDiv_mul_lt dim maxDim hM
  have stop : ∀ cnt, cnt ≤ ceilDiv dim maxDim → ¬ cnt * maxDim < dim →
      cnt = ceilDiv dim maxDim := by
    intro cnt hc hn
    apply ceilDiv_unique
    · omega
    · have := Nat.mul_le_mul_right maxDim hc
      omega
  intro fuel
  induction fuel with
  | zero =>
    intro cnt hf hc
    have h1 : cnt ≤ cnt * maxDim := Nat.le_mul_of_pos_right cnt hM
    have hn : ¬ cnt * maxDim < dim := by omega
    simp only [growCount, hn, if_false]
    rw [stop cnt hc hn]
  | succ fuel ih =>
    intro cnt hf hc
    by_cases hlt2 : cnt * maxDim < dim
    · simp only [growCount, hlt2, if_true]
      have h1 : cnt ≤ cnt * maxDim := Nat.le_mul_of_pos_right cnt hM
      apply ih (cnt + 1) (by omega)
      have : cnt < ceilDiv dim maxDim := by
        by_contra hcon
        have := Nat.mul_le_mul_right maxDim (Nat.le_of_not_lt hcon)
        omega
      omega
    · simp only [growCount, hlt2, if_false]
      rw [stop cnt hc hlt2]

/-! ## Tile rectangles -/

theorem tileColumns_spec (W H MW MH cntW y n : Nat) (v : TileVars)
    (hlen : v.sizes.length = n) (hn : (y + 1) * cntW ≤ n) (hx : v.xOff = 0)
    (hyo : v.yOff = min (y * MH) H) (hh : v.h = min (H - v.yOff) MH)
    (hprev : ∀ k, k < y * cntW → v.sizes[k]? = some (tileRect W H MW MH cntW k)) :
    ∃ v2, forLoop cntW 1 (tileColumnBody W MW cntW y) cntW 0 v = some v2 ∧
      v2.yOff = v.yOff ∧ v2.h = v.h ∧ v2.sizes.length = n ∧
      ∀ k, k < (y + 1) * cntW → v2.sizes[k]? = some (tileRect W H MW MH cntW k) := by
  have key := forLoop_inv_unit cntW (tileColumnBody W MW cntW y)
    (fun j s => s.yOff = v.yOff ∧ s.h = v.h ∧ s.xOff = min (j * MW) W ∧ s.sizes.length = n ∧
      ∀ k, k < y * cntW + j → s.sizes[k]? = some (tileRect W H MW MH cntW k)) v
    ⟨rfl, rfl, by simp [hx], hlen, by simpa using hprev⟩
    (by
      intro j s hj ⟨h1, h2, h3, h4, h5⟩
      refine ⟨_, rfl, h1, h2, ?_, ?_, ?_⟩
      · show s.xOff + min (W - s.xOff) MW = min ((j + 1) * MW) W
        rw [h3, Nat.succ_mul]; omega
      · show (s.sizes.set _ _).length = n
        rw [List.length_set]; exact h4
      · intro k hk
        show (s.sizes.set (y * cntW + j) _)[k]? = _
        rw [List.getElem?_set]
        by_cases hkj : y * cntW + j = k
        · have hin : y * cntW + j < s.sizes.length := by
            rw [h4, Nat.succ_mul] at *; omega
          have hmod : k % cntW = j := by
            rw [← hkj, Nat.add_comm, Nat.add_mul_mod_self_right, Nat.mod_eq_of_lt hj]
          have hdiv : k / cntW = y := by
            rw [← hkj, Nat.add_comm, Nat.add_mul_div_right _ _ (by omega),
              Nat.div_eq_of_lt hj, Nat.zero_add]
          simp only [hkj, if_true]
          rw [if_pos (by rw [← hkj]; exact hin)]
          simp only [tileRect, hmod, hdiv, h3, h1, h2, hh, hyo]
        · rw [if_neg hkj]
          exact h5 k (by omega))
  obtain ⟨v2, hrun, h1, h2, -, h4, h5⟩ := key
  refine ⟨v2, hrun, h1, h2, h4, ?_⟩
  intro k hk
  exact h5 k (by rw [Nat.succ_mul] at hk; omega)

theorem tileRows_spec (W H MW MH cntW cntH : Nat) (v : TileVars)
    (hlen : v.sizes.length = cntW * cntH) (hyo : v.yOff = 0) :
    ∃ v2, forLoop cntH 1 (tileRowBody W H MW MH cntW) cntH 0 v = some v2 ∧
      v2.sizes.length = cntW * cntH ∧
      ∀ k, k < cntW * cntH → v2.sizes[k]? = some (tileRect W H MW MH cntW k) := by
  have key := forLoop_inv_unit cntH (tileRowBody W H MW MH cntW)
    (fun y s => s.yOff = min (y * MH) H ∧ s.sizes.length = cntW * cntH ∧
      ∀ k, k < y * cntW → s.sizes[k]? = some (tileRect W H MW MH cntW k)) v
    ⟨by simp [hyo], hlen, by simp⟩
    (by
      intro y s hy ⟨h1, h2, h3⟩
      have hn : (y + 1) * cntW ≤ cntW * cntH := by
        rw [Nat.mul_comm cntW cntH]
        exact Nat.mul_le_mul_right cntW hy
      obtain ⟨v2, hrun, e1, e2, e3, e4⟩ :=
        tileColumns_spec W H MW MH cntW y (cntW * cntH)
          { s with h := min (H - s.yOff) MH, xOff := 0 } h2 hn rfl h1 rfl h3
      refine ⟨{ v2 with yOff := v2.yOff + v2.h }, ?_, ?_, e3, e4⟩
      · simp only [tileRowBody, hrun]
      · show v2.yOff + v2.h = min ((y + 1) * MH) H
        rw [e1, e2]
        show s.yOff + min (H - s.yOff) MH = _
        rw [h1, Nat.succ_mul]; omega)
  obtain ⟨v2, hrun, -, h2, h3⟩ := key
  exact ⟨v2, hrun, h2, fun k hk => h3 k (by rw [Nat.mul_comm]; exact hk)⟩

/-- Closed form of the grid: ceiling counts and the row-major clipped tiles. -/
theorem tileGrid_spec (W H MW MH : Nat) (hMW : 0 < MW) (hMH : 0 < MH) :
    ∃ sizes, tileGrid W H MW MH = some ⟨ceilDiv W MW, ceilDiv H MH, sizes⟩ ∧
      sizes.length = ceilDiv W MW * ceilDiv H MH ∧
      ∀ t, t < ceilDiv W MW * ceilDiv H MH →
        sizes[t]? = some (tileRect W H MW MH (ceilDiv W MW) t) := by
  have hw := growCount_eq MW W hMW W (roundDiv W MW) (Nat.le_add_left _ _) (roundDiv_le_ceilDiv W MW hMW)
  have hh := growCount_eq MH H hMH H (H / MH) (Nat.le_add_left _ _) (floorDiv_le_ceilDiv H MH hMH)
  obtain ⟨v2, hrun, h2, h3⟩ := tileRows_spec W H MW MH (ceilDiv W MW) (ceilDiv H MH)
    { xOff := 0, yOff := 0, w := min W MW, h := min H MH,
      sizes := List.replicate (ceilDiv W MW * ceilDiv H MH) default }
    (by simp) rfl
  refine ⟨v2.sizes, ?_, h2, h3⟩
  simp only [tileGrid, hw, hh, hrun]

/-- Column and row of a tile index lie inside the grid and its nominal origin
lies inside the frame. -/
theorem tile_index_bounds (W H MW MH t : Nat) (hMW : 0 < MW) (hMH : 0 < MH)
    (ht : t < ceilDiv W MW * ceilDiv H MH) :
    t % ceilDiv W MW < ceilDiv W MW ∧ t / ceilDiv W MW < ceilDiv H MH ∧
      t % ceilDiv W MW * MW < W ∧ t / ceilDiv W MW * MH < H := by
  have hcw : 0 < ceilDiv W MW := by
    rcases Nat.eq_zero_or_pos (ceilDiv W MW) with h0 | h0
    · rw [h0] at ht; omega
    · exact h0
  have hc : t % ceilDiv W MW < ceilDiv W MW := Nat.mod_lt _ hcw
  have hr : t / ceilDiv W MW < ceilDiv H MH := by
    rw [Nat.div_lt_iff_lt_mul hcw, Nat.mul_comm]; exact ht
  refine ⟨hc, hr, ?_, ?_⟩
  · have h1 := Nat.mul_le_mul_right MW (Nat.succ_le_of_lt hc)
    have h2 := ceilDiv_mul_lt W MW hMW
    rw [Nat.succ_mul] at h1; omega
  · have h1 := Nat.mul_le_mul_right MH (Nat.succ_le_of_lt hr)
    have h2 := ceilDiv_mul_lt H MH hMH
    rw [Nat.succ_mul] at h1; omega

/-- C2: the grid shape computed by `addBigFrame` is the pair of ceilings
`ceil(W / MAX_WIDTH_JPEG)`, `ceil(H / MAX_HEIGHT_JPEG)` (each the least count
whose tiles reach the frame edge), both at least one, and neither initial
estimate (rounded quotient for columns, integer quotient for rows) exceeds
the ceiling. -/
theorem tileGrid_shape (W H MW MH : Nat) (hW : 1 ≤ W) (hH : 1 ≤ H)
    (hMW : 1 ≤ MW) (hMH : 1 ≤ MH) :
    ∃ g, tileGrid W H MW MH = some g ∧
      g.cntW = ceilDiv W MW ∧ g.cntH = ceilDiv H MH ∧
      (W ≤ g.cntW * MW ∧ g.cntW * MW < W + MW) ∧
      (H ≤ g.cntH * MH ∧ g.cntH * MH < H + MH) ∧
      1 ≤ g.cntW ∧ 1 ≤ g.cntH ∧
      roundDiv W MW ≤ ceilDiv W MW ∧ H / MH ≤ ceilDiv H MH := by
  obtain ⟨sizes, hg, -, -⟩ := tileGrid_spec W H MW MH hMW hMH
  exact ⟨_, hg, rfl, rfl, ⟨le_ceilDiv_mul W MW hMW, ceilDiv_mul_lt W MW hMW⟩,
    ⟨le_ceilDiv_mul H MH hMH, ceilDiv_mul_lt H MH hMH⟩,
    ceilDiv_pos W MW hW hMW, ceilDiv_pos H MH hH hMH,
    roundDiv_le_ceilDiv W MW hMW, floorDiv_le_ceilDiv H MH hMH⟩

/-- Witness for C2 at the 1920x1080 frame with 640x480 tiles. -/
theorem tileGrid_shape_witness :
    (1 ≤ 1920 ∧ 1 ≤ 1080 ∧ 1 ≤ 640 ∧ 1 ≤ 480) ∧
    ∃ g, tileGrid 1920 1080 640 480 = some g ∧
      g.cntW = ceilDiv 1920 640 ∧ g.cntH = ceilDiv 1080 480 ∧
      (1920 ≤ g.cntW * 640 ∧ g.cntW * 640 < 1920 + 640) ∧
      (1080 ≤ g.cntH * 480 ∧ g.cntH * 480 < 1080 + 480) ∧
      1 ≤ g.cntW ∧ 1 ≤ g.cntH ∧
      roundDiv 1920 640 ≤ ceilDiv 1920 640 ∧ 1080 / 480 ≤ ceilDiv 1080 480 :=
  ⟨by decide, tileGrid_shape 1920 1080 640 480 (by decide) (by decide) (by decide) (by decide)⟩

/-- Tiles are laid out row-major at the nominal size and clipped at the
right and bottom edge: tile `t` has column `t % cntW < cntW`, row
`t / cntW < cntH`, origin `(col * MAX_WIDTH_JPEG, row * MAX_HEIGHT_JPEG)`,
width `min(MAX_WIDTH_JPEG, W - x)` and height `min(MAX_HEIGHT_JPEG, H - y)`. -/
theorem tileGrid_row_major (W H MW MH : Nat) (hMW : 1 ≤ MW) (hMH : 1 ≤ MH) :
    ∃ g, tileGrid W H MW MH = some g ∧ g.sizes.length = g.cntW * g.cntH ∧
      ∀ t, t < g.cntW * g.cntH →
        t % g.cntW < g.cntW ∧ t / g.cntW < g.cntH ∧
        g.sizes[t]? = some
          ⟨t % g.cntW * MW, t / g.cntW * MH,
           min MW (W - t % g.cntW * MW), min MH (H - t / g.cntW * MH)⟩ := by
  obtain ⟨sizes, hg, hlen, hs⟩ := tileGrid_spec W H MW MH hMW hMH
  refine ⟨_, hg, hlen, ?_⟩
  intro t ht
  obtain ⟨hc, hr, hx, hy⟩ := tile_index_bounds W H MW MH t hMW hMH ht
  refine ⟨hc, hr, ?_⟩
  show sizes[t]? = _
  rw [hs t ht]
  simp only [tileRect, Nat.min_eq_left (Nat.le_of_lt hx), Nat.min_eq_left (Nat.le_of_lt hy),
    Nat.min_comm]

/-- C1: the tile rectangles computed by `addBigFrame` partition the frame:
every pixel of the frame lies in exactly one rectangle, no rectangle extends
outside the frame, and every rectangle is at least 1x1 and at most
`MAX_WIDTH_JPEG` x `MAX_HEIGHT_JPEG`. -/
theorem tileGrid_partition (W H MW MH : Nat) (hMW : 1 ≤ MW) (hMH : 1 ≤ MH) :
    ∃ g, tileGrid W H MW MH = some g ∧
      (∀ px py, px < W → py < H →
        ∃! t : Nat, ∃ r : QRect, g.sizes[t]? = some r ∧ r.contains px py) ∧
      (∀ r, r ∈ g.sizes →
        r.x + r.width ≤ W ∧ r.y + r.height ≤ H ∧
        1 ≤ r.width ∧ r.width ≤ MW ∧ 1 ≤ r.height ∧ r.height ≤ MH) := by
  obtain ⟨sizes, hg, hlen, hs⟩ := tileGrid_spec W H MW MH hMW hMH
  refine ⟨_, hg, ?_, ?_⟩
  · intro px py hpx hpy
    show ∃! t : Nat, ∃ r : QRect, sizes[t]? = some r ∧ r.contains px py
    have hcwW := le_ceilDiv_mul W MW hMW
    have hchH := le_ceilDiv_mul H MH hMH
    have hpxl := Nat.div_mul_le_self px MW
    have hpxu := Nat.lt_div_mul_add (a := px) hMW
    have hpyl := Nat.div_mul_le_self py MH
    have hpyu := Nat.lt_div_mul_add (a := py) hMH
    have hcol : px / MW < ceilDiv W MW := by
      rw [Nat.div_lt_iff_lt_mul hMW]; omega
    have hrow : py / MH < ceilDiv H MH := by
      rw [Nat.div_lt_iff_lt_mul hMH]; omega
    generalize px / MW = c0 at hpxl hpxu hcol ⊢
    generalize py / MH = r0 at hpyl hpyu hrow ⊢
    have hcw : 0 < ceilDiv W MW := by omega
    have ht0 : r0 * ceilDiv W MW + c0 < ceilDiv W MW * ceilDiv H MH := by
      have := Nat.mul_le_mul_right (ceilDiv W MW) (Nat.succ_le_of_lt hrow)
      rw [Nat.succ_mul] at this
      rw [Nat.mul_comm (ceilDiv W MW)]
      omega
    have hmod : (r0 * ceilDiv W MW + c0) % ceilDiv W MW = c0 := by
      rw [Nat.add_comm, Nat.add_mul_mod_self_right, Nat.mod_eq_of_lt hcol]
    have hdiv : (r0 * ceilDiv W MW + c0) / ceilDiv W MW = r0 := by
      rw [Nat.add_comm, Nat.add_mul_div_right _ _ hcw, Nat.div_eq_of_lt hcol, Nat.zero_add]
    refine ⟨r0 * ceilDiv W MW + c0, ⟨_, hs _ ht0, ?_⟩, ?_⟩
    · simp only [QRect.contains, tileRect, hmod, hdiv]
      omega
    · rintro t ⟨r, hr, hcont⟩
      have htlt : t < ceilDiv W MW * ceilDiv H MH := by
        rw [← hlen]
        exact (List.getElem?_eq_some.mp hr).1
      rw [hs t htlt] at hr
      have hre : tileRect W H MW MH (ceilDiv W MW) t = r := Option.some.inj hr
      subst hre
      obtain ⟨-, -, hx, hy⟩ := tile_index_bounds W H MW MH t hMW hMH htlt
      simp only [QRect.contains, tileRect] at hcont
      have hdm := Nat.div_add_mod t (ceilDiv W MW)
      generalize t % ceilDiv W MW = c1 at hx hcont hdm
      generalize t / ceilDiv W MW = r1 at hy hcont hdm
      have e1 : c0 = c1 := by
        rcases Nat.lt_trichotomy c0 c1 with h | h | h
        · have := Nat.mul_le_mul_right MW (Nat.succ_le_of_lt h)
          rw [Nat.succ_mul] at this; omega
        · exact h
        · have := Nat.mul_le_mul_right MW (Nat.succ_le_of_lt h)
          rw [Nat.succ_mul] at this; omega
      have e2 : r0 = r1 := by
        rcases Nat.lt_trichotomy r0 r1 with h | h | h
        · have := Nat.mul_le_mul_right MH (Nat.succ_le_of_lt h)
          rw [Nat.succ_mul] at this; omega
        · exact h
        · have := Nat.mul_le_mul_right MH (Nat.succ_le_of_lt h)
          rw [Nat.succ_mul] at this; omega
      rw [← hdm, e1, e2, Nat.mul_comm]
  · intro r hr
    obtain ⟨t, htl, hrt⟩ := List.getElem_of_mem hr
    have htlt : t < ceilDiv W MW * ceilDiv H MH := by rw [← hlen]; exact htl
    have h1 := hs t htlt
    rw [List.getElem?_eq_getElem htl, hrt] at h1
    have hre : r = tileRect W H MW MH (ceilDiv W MW) t := Option.some.inj h1
    obtain ⟨-, -, hx, hy⟩ := tile_index_bounds W H MW MH t hMW hMH htlt
    subst hre
    simp only [tileRect]
    omega

/-- Witness for C1 at the 1920x1080 frame with 640x480 tiles. -/
theorem tileGrid_partition_witness :
    (1 ≤ 640 ∧ 1 ≤ 480) ∧
    ∃ g, tileGrid 1920 1080 640 480 = some g ∧
      (∀ px py, px < 1920 → py < 1080 →
        ∃! t : Nat, ∃ r : QRect, g.sizes[t]? = some r ∧ r.contains px py) ∧
      (∀ r, r ∈ g.sizes →
        r.x + r.width ≤ 1920 ∧ r.y + r.height ≤ 1080 ∧
        1 ≤ r.width ∧ r.width ≤ 640 ∧ 1 ≤ r.height ∧ r.height ≤ 480) :=
  ⟨by decide, tileGrid_partition 1920 1080 640 480 (by decide) (by decide)⟩

/-! ## Colour conversion -/

theorem RGB2Yuv420p_eq_planarLoops (yuv rgb : Mem) (w h : Nat) :
    RGB2Yuv420p yuv rgb w h =
      planarLoops (fun i => lumaSample (rgb (3 * i)) (rgb (3 * i + 1)) (rgb (3 * i + 2)))
        (fun i => cbSample (rgb (3 * i)) (rgb (3 * i + 1)) (rgb (3 * i + 2)))
        (fun i => crSample (rgb (3 * i)) (rgb (3 * i + 1)) (rgb (3 * i + 2))) yuv w h := rfl

theorem Gray2Yuv420p_eq_planarLoops (yuv gray : Mem) (w h : Nat) :
    Gray2Yuv420p yuv gray w h =
      planarLoops (fun i => lumaSample (gray i) (gray i) (gray i))
        (fun i => cbSample (gray i) (gray i) (gray i))
        (fun i => crSample (gray i) (gray i) (gray i)) yuv w h := rfl

/-- One chroma iteration extends the closed form by one sample pair. -/
theorem chromaMem_step (fu fv : Nat → Int) (w du dv : Nat) (m0 : Mem) (n : Nat)
    (hle : du ≤ dv) :
    ((chromaMem fu fv w du dv m0 n).store (du + n) (toByte (fu (chromaPixel w n)))).store
        (dv + n) (toByte (fv (chromaPixel w n))) =
      chromaMem fu fv w du dv m0 (n + 1) := by
  funext a
  simp only [Mem.store, chromaMem]
  split_ifs
  all_goals first
    | rfl
    | (exfalso; omega)
    | (have e : a - dv = n := by omega
       rw [e])
    | (have e : a - du = n := by omega
       rw [e])

theorem chromaPixel_eq (w r c : Nat) (hc : c * 2 < w) :
    (0 + r * 2) * w + (0 + c * 2) = chromaPixel w (r * ((w + 1) / 2) + c) := by
  have hc2 : c < (w + 1) / 2 := by omega
  have hpos : 0 < (w + 1) / 2 := by omega
  have hmod : (r * ((w + 1) / 2) + c) % ((w + 1) / 2) = c := by
    rw [Nat.add_comm, Nat.add_mul_mod_self_right, Nat.mod_eq_of_lt hc2]
  have hdiv : (r * ((w + 1) / 2) + c) / ((w + 1) / 2) = r := by
    rw [Nat.add_comm, Nat.add_mul_div_right _ _ hpos, Nat.div_eq_of_lt hc2, Nat.zero_add]
  unfold chromaPixel
  rw [hmod, hdiv]
  ring

/-- The inner chroma loop of row `r` performs `(w + 1) / 2` iterations. -/
theorem chromaRow_spec (fu fv : Nat → Int) (w du dv : Nat) (m0 : Mem) (r : Nat)
    (hle : du ≤ dv) (v : YuvVars)
    (hu : v.dst_u = du + r * ((w + 1) / 2)) (hv : v.dst_v = dv + r * ((w + 1) / 2))
    (hm : v.yuv = chromaMem fu fv w du dv m0 (r * ((w + 1) / 2))) :
    ∃ v1, forLoop w 2 (fun x (s : YuvVars) =>
        some ((s.putU (fu ((0 + r * 2) * w + x))).putV (fv ((0 + r * 2) * w + x)))) w 0 v
          = some v1 ∧
      v1.dst_u = du + (r + 1) * ((w + 1) / 2) ∧ v1.dst_v = dv + (r + 1) * ((w + 1) / 2) ∧
      v1.yuv = chromaMem fu fv w du dv m0 ((r + 1) * ((w + 1) / 2)) := by
  have key := forLoop_inv w 2 0
    (fun x (s : YuvVars) =>
        some ((s.putU (fu ((0 + r * 2) * w + x))).putV (fv ((0 + r * 2) * w + x))))
    (fun c s => s.dst_u = du + (r * ((w + 1) / 2) + c) ∧
      s.dst_v = dv + (r * ((w + 1) / 2) + c) ∧
      s.yuv = chromaMem fu fv w du dv m0 (r * ((w + 1) / 2) + c))
    (by
      intro c s hc ⟨h1, h2, h3⟩
      have hc2 : c * 2 < w := by omega
      refine ⟨_, rfl, ?_, ?_, ?_⟩
      · show s.dst_u + 1 = _
        omega
      · show s.dst_v + 1 = _
        omega
      · show (s.yuv.store s.dst_u _).store s.dst_v _ = _
        rw [h1, h2, h3, chromaPixel_eq w r c hc2]
        exact chromaMem_step fu fv w du dv m0 _ hle)
    w 0 v (by omega) ⟨by simpa using hu, by simpa using hv, by simpa using hm⟩
  obtain ⟨v1, n, hrun, ⟨h1, h2, h3⟩, -, hb, hl⟩ := key
  have hn : n = (w + 1) / 2 := by omega
  subst hn
  refine ⟨v1, by simpa using hrun, ?_, ?_, ?_⟩
  · rw [h1, Nat.succ_mul]
  · rw [h2, Nat.succ_mul]
  · rw [h3, Nat.succ_mul]

theorem chromaMem_zero (fu fv : Nat → Int) (w du dv : Nat) (m0 : Mem) :
    chromaMem fu fv w du dv m0 0 = m0 := by
  funext a
  simp only [chromaMem]
  split_ifs
  all_goals first
    | rfl
    | (exfalso; omega)

/-- The luma loop writes `fy i` at offset `i` for every `i < n`. -/
theorem lumaLoop_spec (fy : Nat → Int) (n : Nat) (v : YuvVars) (hy : v.dst_y = 0) :
    ∃ v1, forLoop n 1 (fun i (s : YuvVars) => some (s.putY (fy i))) n 0 v = some v1 ∧
      v1.dst_u = v.dst_u ∧ v1.dst_v = v.dst_v ∧
      v1.yuv = fun a => if a < n then toByte (fy a) else v.yuv a := by
  have key := forLoop_inv_unit n (fun i (s : YuvVars) => some (s.putY (fy i)))
    (fun j s => s.dst_y = j ∧ s.dst_u = v.dst_u ∧ s.dst_v = v.dst_v ∧
      s.yuv = fun a => if a < j then toByte (fy a) else v.yuv a) v
    ⟨hy, rfl, rfl, by funext a; simp⟩
    (by
      intro j s _ ⟨h1, h2, h3, h4⟩
      refine ⟨_, rfl, ?_, h2, h3, ?_⟩
      · show s.dst_y + 1 = j + 1
        omega
      · show s.yuv.store s.dst_y _ = _
        rw [h1, h4]
        funext a
        simp only [Mem.store]
        split_ifs
        all_goals first
          | rfl
          | (exfalso; omega)
          | (have e : a = j := by omega
             rw [e]))
  obtain ⟨v1, hrun, -, h2, h3, h4⟩ := key
  exact ⟨v1, hrun, h2, h3, h4⟩

/-- Closed form of the three loops: the luma plane, then the interleaved
chroma stores of `((h + 1) / 2) * ((w + 1) / 2)` iterations. -/
theorem planarLoops_spec (fy fu fv : Nat → Int) (yuv : Mem) (w h : Nat) :
    planarLoops fy fu fv yuv w h =
      some (chromaMem fu fv w (w * h) (w * h * 5 / 4)
        (fun a => if a < w * h then toByte (fy a) else yuv a)
        ((h + 1) / 2 * ((w + 1) / 2))) := by
  obtain ⟨v1, hrun1, hu, hv, hm⟩ := lumaLoop_spec fy (w * h)
    { dst_y := 0, dst_u := w * h, dst_v := w * h * 5 / 4, yuv := yuv } rfl
  have hle : w * h ≤ w * h * 5 / 4 := by omega
  have key := forLoop_inv h 2 0
    (fun y (v : YuvVars) =>
      forLoop w 2 (fun x (s : YuvVars) =>
        some ((s.putU (fu (y * w + x))).putV (fv (y * w + x)))) w 0 v)
    (fun r s => s.dst_u = w * h + r * ((w + 1) / 2) ∧
      s.dst_v = w * h * 5 / 4 + r * ((w + 1) / 2) ∧
      s.yuv = chromaMem fu fv w (w * h) (w * h * 5 / 4)
        (fun a => if a < w * h then toByte (fy a) else yuv a) (r * ((w + 1) / 2)))
    (by
      intro r s _ ⟨h1, h2, h3⟩
      exact chromaRow_spec fu fv w (w * h) (w * h * 5 / 4) _ r hle s h1 h2 h3)
    h 0 v1 (by omega)
    ⟨by simpa using hu, by simpa using hv, by
      rw [hm, Nat.zero_mul, chromaMem_zero]⟩
  obtain ⟨v2, n, hrun2, ⟨-, -, h3⟩, -, hb, hl⟩ := key
  have hn : n = (h + 1) / 2 := by omega
  subst hn
  simp only [Nat.zero_mul, Nat.add_zero] at hrun2
  simp only [planarLoops, hrun1, hrun2, h3]

/-! ## Sample ranges -/

theorem toByte_of_range (x : Int) (h0 : 0 ≤ x) (h1 : x ≤ 255) : (toByte x : Int) = x := by
  unfold toByte
  omega

theorem lumaSample_range (r g b : Int) (hr : 0 ≤ r ∧ r ≤ 255) (hg : 0 ≤ g ∧ g ≤ 255)
    (hb : 0 ≤ b ∧ b ≤ 255) : 16 ≤ lumaSample r g b ∧ lumaSample r g b ≤ 235 := by
  unfold lumaSample
  rw [Int.shiftRight_eq_div_pow]
  norm_num
  omega

theorem cbSample_range (r g b : Int) (hr : 0 ≤ r ∧ r ≤ 255) (hg : 0 ≤ g ∧ g ≤ 255)
    (hb : 0 ≤ b ∧ b ≤ 255) : 15 ≤ cbSample r g b ∧ cbSample r g b ≤ 240 := by
  unfold cbSample
  rw [Int.shiftRight_eq_div_pow]
  norm_num
  omega

theorem crSample_range (r g b : Int) (hr : 0 ≤ r ∧ r ≤ 255) (hg : 0 ≤ g ∧ g ≤ 255)
    (hb : 0 ≤ b ∧ b ≤ 255) : 15 ≤ crSample r g b ∧ crSample r g b ≤ 240 := by
  unfold crSample
  rw [Int.shiftRight_eq_div_pow]
  norm_num
  omega

theorem cbSample_gray (v : Int) : cbSample v v v = 128 := by
  unfold cbSample
  have e : -38856 * v - 76282 * v + 115138 * v = 0 := by ring
  rw [e]
  rfl

theorem crSample_gray (v : Int) : crSample v v v = 128 := by
  unfold crSample
  have e : 115138 * v - 96414 * v - 18724 * v = 0 := by ring
  rw [e]
  rfl

theorem lumaSample_gray (v : Int) :
    lumaSample v v v = (((67316 + 132154 + 25666) * v) >>> (18 : Nat)) + 16 := by
  unfold lumaSample
  have e : 67316 * v + 132154 * v + 25666 * v = (67316 + 132154 + 25666) * v := by ring
  rw [e]

/-- Every chroma iteration reads a pixel of the image. -/
theorem chromaPixel_lt (w h j : Nat) (hj : j < (h + 1) / 2 * ((w + 1) / 2)) :
    chromaPixel w j < w * h := by
  have hpos : 0 < (w + 1) / 2 := by
    rcases Nat.eq_zero_or_pos ((w + 1) / 2) with h0 | h0
    · rw [h0] at hj; omega
    · exact h0
  have hr : j / ((w + 1) / 2) < (h + 1) / 2 := by
    rw [Nat.div_lt_iff_lt_mul hpos]; exact hj
  have hc : j % ((w + 1) / 2) < (w + 1) / 2 := Nat.mod_lt _ hpos
  unfold chromaPixel
  generalize j / ((w + 1) / 2) = r at hr
  generalize j % ((w + 1) / 2) = c at hc
  have h1 : 2 * r + 1 ≤ h := by omega
  have h2 := Nat.mul_le_mul_right w h1
  have e : (2 * r + 1) * w = 2 * r * w + w := by ring
  rw [Nat.mul_comm w h]
  omega

/-- C4: on a uniform-gray image of value `v ≤ 255`, `Gray2Yuv420p` stores
`(((67316 + 132154 + 25666) * v) >> 18) + 16` in every luma sample (a value
between 0 and 255, so the byte store does not wrap) and 128 in every U sample
and every V sample. -/
theorem Gray2Yuv420p_uniform (yuv gray : Mem) (w h v : Nat)
    (hv : v ≤ 255) (hg : ∀ i, i < w * h → gray i = v) :
    ∃ out, Gray2Yuv420p yuv gray w h = some out ∧
      (0 ≤ (((67316 + 132154 + 25666) * (v : Int)) >>> (18 : Nat)) + 16 ∧
        (((67316 + 132154 + 25666) * (v : Int)) >>> (18 : Nat)) + 16 ≤ 255) ∧
      (∀ i, i < w * h →
        (out i : Int) = (((67316 + 132154 + 25666) * (v : Int)) >>> (18 : Nat)) + 16) ∧
      (∀ j, j < (h + 1) / 2 * ((w + 1) / 2) →
        out (w * h + j) = 128 ∧ out (w * h * 5 / 4 + j) = 128) := by
  have hvr : (0 : Int) ≤ (v : Int) ∧ (v : Int) ≤ 255 := by omega
  have hlr := lumaSample_range v v v hvr hvr hvr
  rw [lumaSample_gray] at hlr
  refine ⟨_, by rw [Gray2Yuv420p_eq_planarLoops, planarLoops_spec], by omega, ?_, ?_⟩
  · intro i hi
    have hne : ¬ (w * h ≤ i) := by omega
    have hne2 : ¬ (w * h * 5 / 4 ≤ i) := by omega
    simp only [chromaMem, hne, hne2, false_and, if_false, hi, if_true, hg i hi]
    rw [lumaSample_gray, toByte_of_range _ (by omega) (by omega)]
  · intro j hj
    have hpx : ∀ k, k < (h + 1) / 2 * ((w + 1) / 2) →
        toByte (cbSample (gray (chromaPixel w k)) (gray (chromaPixel w k))
          (gray (chromaPixel w k))) = 128 ∧
        toByte (crSample (gray (chromaPixel w k)) (gray (chromaPixel w k))
          (gray (chromaPixel w k))) = 128 := by
      intro k hk
      rw [hg _ (chromaPixel_lt w h k hk), cbSample_gray, crSample_gray]
      exact ⟨rfl, rfl⟩
    generalize hN : (h + 1) / 2 * ((w + 1) / 2) = N at hj hpx
    constructor
    · simp only [chromaMem]
      split_ifs
      all_goals first
        | exact (hpx _ (by omega)).1
        | exact (hpx _ (by omega)).2
        | (exfalso; omega)
    · simp only [chromaMem]
      split_ifs
      all_goals first
        | exact (hpx _ (by omega)).1
        | exact (hpx _ (by omega)).2
        | (exfalso; omega)

/-- Witness for C4: a 3x3 image of gray value 100. -/
theorem Gray2Yuv420p_uniform_witness :
    (100 ≤ 255 ∧ ∀ i, i < 3 * 3 → (fun _ : Nat => 100) i = 100) ∧
    ∃ out, Gray2Yuv420p (fun _ => 0) (fun _ => 100) 3 3 = some out ∧
      (0 ≤ (((67316 + 132154 + 25666) * ((100 : Nat) : Int)) >>> (18 : Nat)) + 16 ∧
        (((67316 + 132154 + 25666) * ((100 : Nat) : Int)) >>> (18 : Nat)) + 16 ≤ 255) ∧
      (∀ i, i < 3 * 3 →
        (out i : Int) = (((67316 + 132154 + 25666) * ((100 : Nat) : Int)) >>> (18 : Nat)) + 16) ∧
      (∀ j, j < (3 + 1) / 2 * ((3 + 1) / 2) →
        out (3 * 3 + j) = 128 ∧ out (3 * 3 * 5 / 4 + j) = 128) :=
  ⟨⟨by decide, fun _ _ => rfl⟩,
    Gray2Yuv420p_uniform (fun _ => 0) (fun _ => 100) 3 3 100
      (by decide) (fun _ _ => rfl)⟩

/-- C5: for even width and height, `RGB2Yuv420p` stores the luma expression of
every pixel `i` at offset `i`, and for every 2x2 block `(cx, cy)` the two
chroma expressions of the block's top-left pixel `(2 * cx, 2 * cy)` at
`w * h + cy * (w / 2) + cx` and `w * h + w * h / 4 + cy * (w / 2) + cx`; the
stored bytes equal the expressions (no wrap). -/
theorem RGB2Yuv420p_even (yuv rgb : Mem) (w h : Nat) (hwe : w % 2 = 0) (hhe : h % 2 = 0)
    (hrgb : ∀ k, k < 3 * (w * h) → rgb k ≤ 255) :
    ∃ out, RGB2Yuv420p yuv rgb w h = some out ∧
      (∀ i, i < w * h →
        (out i : Int) =
          ((67316 * (rgb (3 * i) : Int) + 132154 * (rgb (3 * i + 1) : Int)
            + 25666 * (rgb (3 * i + 2) : Int)) >>> (18 : Nat)) + 16) ∧
      (∀ cx cy, cx < w / 2 → cy < h / 2 →
        (out (w * h + cy * (w / 2) + cx) : Int) =
          ((-38856 * (rgb (3 * (2 * cy * w + 2 * cx)) : Int)
            - 76282 * (rgb (3 * (2 * cy * w + 2 * cx) + 1) : Int)
            + 115138 * (rgb (3 * (2 * cy * w + 2 * cx) + 2) : Int)) >>> (18 : Nat)) + 128 ∧
        (out (w * h + w * h / 4 + cy * (w / 2) + cx) : Int) =
          ((115138 * (rgb (3 * (2 * cy * w + 2 * cx)) : Int)
            - 96414 * (rgb (3 * (2 * cy * w + 2 * cx) + 1) : Int)
            - 18724 * (rgb (3 * (2 * cy * w + 2 * cx) + 2) : Int)) >>> (18 : Nat)) + 128) := by
  have hbyte : ∀ i, i < w * h →
      ((0 : Int) ≤ rgb (3 * i) ∧ (rgb (3 * i) : Int) ≤ 255) ∧
      ((0 : Int) ≤ rgb (3 * i + 1) ∧ (rgb (3 * i + 1) : Int) ≤ 255) ∧
      ((0 : Int) ≤ rgb (3 * i + 2) ∧ (rgb (3 * i + 2) : Int) ≤ 255) := by
    intro i hi
    have h0 := hrgb (3 * i) (by omega)
    have h1 := hrgb (3 * i + 1) (by omega)
    have h2 := hrgb (3 * i + 2) (by omega)
    omega
  refine ⟨_, by rw [RGB2Yuv420p_eq_planarLoops, planarLoops_spec], ?_, ?_⟩
  · intro i hi
    obtain ⟨b0, b1, b2⟩ := hbyte i hi
    have hl := lumaSample_range _ _ _ b0 b1 b2
    have hne : ¬ (w * h ≤ i) := by omega
    have hne2 : ¬ (w * h * 5 / 4 ≤ i) := by omega
    simp only [chromaMem, hne, hne2, false_and, if_false, hi, if_true]
    rw [toByte_of_range _ (by omega) (by omega)]
    rfl
  · intro cx cy hcx hcy
    have hnc : (w + 1) / 2 = w / 2 := by omega
    have hnr : (h + 1) / 2 = h / 2 := by omega
    have hw2 : w = 2 * (w / 2) := by omega
    have hh2 : h = 2 * (h / 2) := by omega
    have hwh : w * h = 4 * (h / 2 * (w / 2)) := by
      conv_lhs => rw [hw2, hh2]
      ring
    have hj : cy * (w / 2) + cx < h / 2 * (w / 2) := by
      have := Nat.mul_le_mul_right (w / 2) (Nat.succ_le_of_lt hcy)
      rw [Nat.succ_mul] at this
      omega
    have hpix : chromaPixel w (cy * (w / 2) + cx) = 2 * cy * w + 2 * cx := by
      have := chromaPixel_eq w cy cx (by omega)
      rw [hnc] at this
      rw [← this]
      ring
    have hlt : 2 * cy * w + 2 * cx < w * h := by
      rw [← hpix]
      exact chromaPixel_lt w h _ (by rw [hnc, hnr]; exact hj)
    obtain ⟨b0, b1, b2⟩ := hbyte _ hlt
    have hcb := cbSample_range _ _ _ b0 b1 b2
    have hcr := crSample_range _ _ _ b0 b1 b2
    rw [hnc, hnr]
    generalize hN : h / 2 * (w / 2) = N at hj hwh
    constructor
    · have e : w * h + cy * (w / 2) + cx - w * h = cy * (w / 2) + cx := by omega
      have c1 : w * h ≤ w * h + cy * (w / 2) + cx ∧
          w * h + cy * (w / 2) + cx < w * h + N ∧
          (w * h < w * h * 5 / 4 ∨
            ¬ (w * h * 5 / 4 ≤ w * h + cy * (w / 2) + cx ∧
              w * h + cy * (w / 2) + cx < w * h * 5 / 4 + N)) := by
        refine ⟨by omega, by omega, Or.inl (by omega)⟩
      simp only [chromaMem, c1, and_self, if_true, e, hpix]
      rw [toByte_of_range _ (by omega) (by omega)]
      rfl
    · have e : w * h + w * h / 4 + cy * (w / 2) + cx - w * h * 5 / 4 = cy * (w / 2) + cx := by
        omega
      have c1 : ¬ (w * h + w * h / 4 + cy * (w / 2) + cx < w * h + N) := by
        omega
      have c2 : w * h * 5 / 4 ≤ w * h + w * h / 4 + cy * (w / 2) + cx ∧
          w * h + w * h / 4 + cy * (w / 2) + cx < w * h * 5 / 4 + N := by
        omega
      simp only [chromaMem, c1, c2, false_and, and_false, and_self, if_true, if_false, e, hpix]
      rw [toByte_of_range _ (by omega) (by omega)]
      rfl

/-- Witness for C5: a 2x2 image. -/
theorem RGB2Yuv420p_even_witness :
    (2 % 2 = 0 ∧ 2 % 2 = 0 ∧ ∀ k, k < 3 * (2 * 2) → (fun k : Nat => k % 3 * 100) k ≤ 255) ∧
    ∃ out, RGB2Yuv420p (fun _ => 0) (fun k => k % 3 * 100) 2 2 = some out ∧
      (∀ i, i < 2 * 2 →
        (out i : Int) =
          ((67316 * (((fun k : Nat => k % 3 * 100) (3 * i) : Nat) : Int)
            + 132154 * (((fun k : Nat => k % 3 * 100) (3 * i + 1) : Nat) : Int)
            + 25666 * (((fun k : Nat => k % 3 * 100) (3 * i + 2) : Nat) : Int))
              >>> (18 : Nat)) + 16) ∧
      (∀ cx cy, cx < 2 / 2 → cy < 2 / 2 →
        (out (2 * 2 + cy * (2 / 2) + cx) : Int) =
          ((-38856 * (((fun k : Nat => k % 3 * 100) (3 * (2 * cy * 2 + 2 * cx)) : Nat) : Int)
            - 76282 * (((fun k : Nat => k % 3 * 100) (3 * (2 * cy * 2 + 2 * cx) + 1) : Nat) : Int)
            + 115138 * (((fun k : Nat => k % 3 * 100) (3 * (2 * cy * 2 + 2 * cx) + 2) : Nat) : Int))
              >>> (18 : Nat)) + 128 ∧
        (out (2 * 2 + 2 * 2 / 4 + cy * (2 / 2) + cx) : Int) =
          ((115138 * (((fun k : Nat => k % 3 * 100) (3 * (2 * cy * 2 + 2 * cx)) : Nat) : Int)
            - 96414 * (((fun k : Nat => k % 3 * 100) (3 * (2 * cy * 2 + 2 * cx) + 1) : Nat) : Int)
            - 18724 * (((fun k : Nat => k % 3 * 100) (3 * (2 * cy * 2 + 2 * cx) + 2) : Nat) : Int))
              >>> (18 : Nat)) + 128) :=
  ⟨⟨by decide, by decide, by intro k _; show k % 3 * 100 ≤ 255; omega⟩,
    RGB2Yuv420p_even (fun _ => 0) (fun k => k % 3 * 100) 2 2 (by decide) (by decide)
      (by intro k _; show k % 3 * 100 ≤ 255; omega)⟩

/-- C6 at a 3x3 all-red image: the U cursor starts at offset 9, the V cursor
at `9 * 5 / 4 = 11`, and four chroma pairs are written, so the U samples of
the third and fourth block land on the bytes that held the V samples (240) of
the first and second block: offsets 11 and 12 hold the U value 90 at return. -/
theorem RGB2Yuv420p_odd_planes_overlap :
    3 * 3 * 5 / 4 = 11 ∧ (3 + 1) / 2 * ((3 + 1) / 2) = 4 ∧
    toByte (cbSample 255 0 0) = 90 ∧ toByte (crSample 255 0 0) = 240 ∧
    (RGB2Yuv420p (fun _ => 0) (fun k => if k % 3 = 0 then 255 else 0) 3 3).map
        (fun out => (List.range 16).map out) =
      some [81, 81, 81, 81, 81, 81, 81, 81, 81, 90, 90, 90, 90, 240, 240, 0] := by
  decide

/-! ## Frame queue -/

/-- C7 fails as stated: with the queue at capacity `addFrame` still reports
`true`. -/
theorem addFrame_full_reports_true :
    (addFrame (sampleServer 2 2 1 [7]) (fun _ => 0)).2.mFrameBuffers.length =
      (addFrame (sampleServer 2 2 1 [7]) (fun _ => 0)).2.mMaxFrameBuffers ∧
    (addFrame (addFrame (sampleServer 2 2 1 [7]) (fun _ => 0)).2 (fun _ => 1)).1 = true ∧
    ¬ (addFrame (addFrame (sampleServer 2 2 1 [7]) (fun _ => 0)).2 (fun _ => 1)).1 = false := by
  decide

/-- What `addFrame` returns and which members it changes. -/
theorem addFrame_effect {ε : Type} (s : Server ε) (buf : Mem) :
    (addFrame s buf).1 = true ∧
    (addFrame s buf).2.mFrameBuffers =
      (if s.mFrameBuffers.length < s.mMaxFrameBuffers then s.mFrameBuffers ++ [buf]
        else s.mFrameBuffers) ∧
    (addFrame s buf).2.mMaxFrameBuffers = s.mMaxFrameBuffers ∧
    (addFrame s buf).2.ptsLog = s.ptsLog ∧ (addFrame s buf).2.sent = s.sent ∧
    (addFrame s buf).2.mFramesProcessed = s.mFramesProcessed := by
  unfold addFrame
  by_cases h : s.mFrameBuffers.length < s.mMaxFrameBuffers <;>
    by_cases h2 : s.mFrameThread <;> simp [h, h2]

/-- C7 as amended: `addFrame` reports `true` in every state; with the queue
at capacity the queue is unchanged, below capacity the buffer is appended at
the back; no `pts` is assigned and no packet is sent. -/
theorem addFrame_reports_true {ε : Type} (s : Server ε) (buf : Mem) :
    (addFrame s buf).1 = true ∧
    (addFrame s buf).2.mFrameBuffers =
      (if s.mFrameBuffers.length < s.mMaxFrameBuffers then s.mFrameBuffers ++ [buf]
        else s.mFrameBuffers) ∧
    (addFrame s buf).2.mMaxFrameBuffers = s.mMaxFrameBuffers ∧
    (addFrame s buf).2.ptsLog = s.ptsLog ∧ (addFrame s buf).2.sent = s.sent ∧
    (addFrame s buf).2.mFramesProcessed = s.mFramesProcessed :=
  addFrame_effect s buf

/-! ## Effects of the send and encode helpers -/

theorem sendPkt_loop_eq {ε : Type} (pkt : AVPacket) (l : List TcpClient) (s : Server ε) :
    l.foldl (fun s1 c => { s1 with sent := s1.sent ++ [(c, pkt)] }) s =
      { s with sent := s.sent ++ l.map (fun c => (c, pkt)) } := by
  induction l generalizing s with
  | nil => simp
  | cons c l ih => simp [List.foldl_cons, ih]

/-- One `sendPkt` call records one `sendpkt` per client, in client order, and
changes nothing else. -/
theorem sendPkt_eq {ε : Type} (s : Server ε) (pkt : AVPacket) :
    sendPkt s pkt = { s with sent := s.sent ++ s.mClients.map (fun c => (c, pkt)) } :=
  sendPkt_loop_eq pkt s.mClients s

theorem sendPkt_core {ε : Type} (s : Server ε) (pkt : AVPacket) :
    (sendPkt s pkt).core = s.core := by
  rw [sendPkt_eq]; rfl

theorem sendPkt_batch_core {ε : Type} (pkts : List AVPacket) (s : Server ε) :
    (pkts.foldl sendPkt s).core = s.core := by
  induction pkts generalizing s with
  | nil => rfl
  | cons p l ih => rw [List.foldl_cons, ih, sendPkt_core]

theorem encodeWriteLoop_core {ε : Type} (env : Env ε) (frame : AVFrame) :
    ∀ (fuel : Nat) (s s1 : Server ε),
      encodeWriteLoop env frame fuel s = .ok s1 → s1.core = s.core := by
  intro fuel
  induction fuel with
  | zero => intro s s1 h; simp [encodeWriteLoop] at h
  | succ fuel ih =>
    intro s s1 h
    simp only [encodeWriteLoop] at h
    split_ifs at h with h1 h2
    · cases h
      rw [sendPkt_core]; rfl
    · rw [ih _ _ h]; rfl
    · cases h
      rfl

theorem encodeWriteFrame_core {ε : Type} (env : Env ε) (fuel : Nat) (s s1 : Server ε)
    (frame : AVFrame) (h : encodeWriteFrame env fuel s frame = .ok s1) :
    s1.core = s.core := by
  simp only [encodeWriteFrame] at h
  split_ifs at h with h1
  · cases h; rfl
  · rw [encodeWriteLoop_core env frame fuel _ _ h]; rfl

/-- The end of `addInternalFrame` never lowers the counter and touches nothing
else of the core. -/
theorem finishFrame_core {ε : Type} (ret : Int) (s : Server ε) :
    s.mFramesProcessed ≤ (finishFrame ret s).2.mFramesProcessed ∧
    (finishFrame ret s).2.core.2 = s.core.2 := by
  unfold finishFrame
  split_ifs
  · exact ⟨Nat.le_succ _, rfl⟩
  · exact ⟨le_refl _, rfl⟩

theorem finishFrame_effect {ε : Type} (s x s1 : Server ε) (ret : Int) (b : Bool)
    (hx : x.core = (s.mFramesProcessed + 1, s.ptsLog ++ [s.mFramesProcessed],
      s.mFrameBuffers, s.mMaxFrameBuffers, s.nSubmitted, s.nHanded))
    (h : finishFrame ret x = (b, s1)) : EncodeEffect s s1 := by
  have hf := finishFrame_core ret x
  rw [h] at hf
  simp only [Server.core, Prod.mk.injEq] at hx hf
  obtain ⟨c1, c2, c3, c4, c5, c6⟩ := hx
  obtain ⟨f1, f2, f3, f4, f5⟩ := hf
  exact ⟨by rw [f3, c3], by rw [f4, c4], by rw [f5.1, c5], by rw [f5.2, c6],
    Or.inr ⟨by rw [f2, c2], by omega⟩⟩

theorem encodeWithCodec_effect {ε : Type} (env : Env ε) (fuel : Nat) (s s1 : Server ε)
    (buf : Mem) (b : Bool) (h : encodeWithCodec env fuel s buf = .ok (b, s1)) :
    EncodeEffect s s1 := by
  simp only [encodeWithCodec] at h
  split at h
  · cases h
  · split at h
    · cases h
    · rename_i s3 henc
      have hc := encodeWriteFrame_core env fuel _ _ _ henc
      simp only [Except.ok.injEq] at h
      exact finishFrame_effect s s3 s1 _ b (by rw [hc]; rfl) h

theorem encodeWithJpegFunction_effect {ε : Type} (s s1 : Server ε)
    (buf : Mem) (b : Bool) (h : encodeWithJpegFunction s buf = .ok (b, s1)) :
    EncodeEffect s s1 := by
  by_cases h1 : s.mCodecId = .AV_CODEC_ID_MJPEG
  · simp only [encodeWithJpegFunction, if_pos h1, Except.ok.injEq] at h
    exact finishFrame_effect s _ s1 0 b (by rw [sendPkt_core]; rfl) h
  · simp [encodeWithJpegFunction, if_neg h1] at h

/-- A returning `addInternalFrame` leaves the queue and the call counters
alone; it assigns either no `pts`, or the current counter value, after which
the counter is larger. -/
theorem addInternalFrame_effect {ε : Type} (env : Env ε) (fuel : Nat) (s s1 : Server ε)
    (buf : Mem) (b : Bool) (h : addInternalFrame env fuel s buf = .ok (b, s1)) :
    EncodeEffect s s1 := by
  unfold addInternalFrame at h
  split_ifs at h with h1 h2
  · cases h
    exact ⟨rfl, rfl, rfl, rfl, Or.inl ⟨rfl, rfl⟩⟩
  · exact encodeWithCodec_effect env fuel s s1 buf b h
  · exact encodeWithJpegFunction_effect s s1 buf b h

/-! ## The buffered pipeline -/

/-- The queue invariant: at most `mMaxFrameBuffers` frames are buffered, and
the frames handed to the encoder plus the buffered ones do not exceed the
submitted ones. -/
theorem runPipeline_invariant {ε : Type} (env : Env ε) (steps : List PipelineStep) :
    ∀ (s s1 : Server ε),
      s.mFrameBuffers.length ≤ s.mMaxFrameBuffers →
      s.nHanded + s.mFrameBuffers.length ≤ s.nSubmitted →
      runPipeline env steps s = .ok s1 →
      s1.mFrameBuffers.length ≤ s1.mMaxFrameBuffers ∧
      s1.nHanded + s1.mFrameBuffers.length ≤ s1.nSubmitted ∧
      s1.mMaxFrameBuffers = s.mMaxFrameBuffers := by
  induction steps with
  | nil =>
    intro s s1 h1 h2 hrun
    simp only [runPipeline, Except.ok.injEq] at hrun
    subst hrun
    exact ⟨h1, h2, rfl⟩
  | cons st rest ih =>
    intro s s1 h1 h2 hrun
    cases st with
    | submit buf =>
      simp only [runPipeline] at hrun
      have hq : (addFrame s buf).2.mFrameBuffers.length ≤ (addFrame s buf).2.mMaxFrameBuffers ∧
          (addFrame s buf).2.nHanded + (addFrame s buf).2.mFrameBuffers.length ≤
            (addFrame s buf).2.nSubmitted ∧
          (addFrame s buf).2.mMaxFrameBuffers = s.mMaxFrameBuffers := by
        unfold addFrame
        by_cases hc : s.mFrameBuffers.length < s.mMaxFrameBuffers <;>
          by_cases hc2 : s.mFrameThread <;> simp [hc, hc2] <;> omega
      obtain ⟨r1, r2, r3⟩ := ih _ s1 hq.1 hq.2.1 hrun
      exact ⟨r1, r2, by rw [r3, hq.2.2]⟩
    | work fuel =>
      simp only [runPipeline] at hrun
      split at hrun
      · cases hrun
      · rename_i s2 hstep
        have hq : s2.mFrameBuffers.length ≤ s2.mMaxFrameBuffers ∧
            s2.nHanded + s2.mFrameBuffers.length ≤ s2.nSubmitted ∧
            s2.mMaxFrameBuffers = s.mMaxFrameBuffers := by
          unfold doFrameBufferStep at hstep
          split_ifs at hstep with hd
          · cases hstep; exact ⟨h1, h2, rfl⟩
          · split at hstep
            · cases hstep; exact ⟨h1, h2, rfl⟩
            · rename_i fb tl hfb
              simp only at hstep
              split at hstep
              · cases hstep
              · rename_i b s3 hadd
                cases hstep
                obtain ⟨e1, e2, e3, e4, -⟩ := addInternalFrame_effect env fuel _ _ _ _ hadd
                rw [hfb] at h1 h2
                simp only [List.length_cons] at h1 h2
                refine ⟨?_, ?_, ?_⟩
                · rw [e1, e2]; show tl.length ≤ s.mMaxFrameBuffers; omega
                · rw [e1, e3, e4]; show s.nHanded + 1 + tl.length ≤ s.nSubmitted; omega
                · rw [e2]
        obtain ⟨r1, r2, r3⟩ := ih _ s1 hq.1 hq.2.1 hrun
        exact ⟨r1, r2, by rw [r3, hq.2.2]⟩

/-- C8: from an empty queue, after any sequence of `addFrame` calls and
worker iterations the queue holds at most `mMaxFrameBuffers` frames and the
worker has handed no more frames to `addInternalFrame` than were submitted. -/
theorem pipeline_queue_bound {ε : Type} (env : Env ε) (steps : List PipelineStep)
    (s s1 : Server ε) (hq : s.mFrameBuffers = []) (hs : s.nSubmitted = 0)
    (hh : s.nHanded = 0) (hrun : runPipeline env steps s = .ok s1) :
    s1.mFrameBuffers.length ≤ s.mMaxFrameBuffers ∧ s1.nHanded ≤ s1.nSubmitted := by
  obtain ⟨r1, r2, r3⟩ := runPipeline_invariant env steps s s1
    (by rw [hq]; exact Nat.zero_le _) (by rw [hq, hs, hh]; exact Nat.le_refl _) hrun
  exact ⟨by rw [← r3]; exact r1, by omega⟩

/-- C8, capacity 5: ten submissions with no worker iteration leave exactly five
frames buffered; ten submissions followed by three worker iterations leave two
buffered and three handed over. -/
theorem pipeline_queue_bound_witness :
    ∃ s1 s2 : Server Unit,
      runPipeline sampleEnv (List.replicate 10 (.submit (fun _ => 0)))
        (sampleServer 2 2 5 [7]) = .ok s1 ∧
      s1.mFrameBuffers.length = 5 ∧ s1.nSubmitted = 10 ∧ s1.nHanded = 0 ∧
      (s1.mFrameBuffers.length ≤ (sampleServer 2 2 5 [7]).mMaxFrameBuffers ∧
        s1.nHanded ≤ s1.nSubmitted) ∧
      runPipeline sampleEnv
        (List.replicate 10 (.submit (fun _ => 0)) ++ List.replicate 3 (.work 1))
        (sampleServer 2 2 5 [7]) = .ok s2 ∧
      s2.mFrameBuffers.length = 2 ∧ s2.nSubmitted = 10 ∧ s2.nHanded = 3 :=
  ⟨_, _, rfl, rfl, rfl, rfl,
    pipeline_queue_bound sampleEnv (List.replicate 10 (.submit (fun _ => 0)))
      (sampleServer 2 2 5 [7]) _ rfl rfl rfl rfl,
    rfl, rfl, rfl, rfl⟩

/-! ## Frame sequence numbers -/

theorem sendPkt_batch_eq {ε : Type} (pkts : List AVPacket) (s : Server ε) :
    pkts.foldl sendPkt s =
      { s with sent := s.sent ++ pkts.flatMap (fun p => s.mClients.map (fun c => (c, p))) } := by
  induction pkts generalizing s with
  | nil => simp
  | cons p l ih =>
    rw [List.foldl_cons, ih, sendPkt_eq]
    simp [List.flatMap_cons, List.append_assoc]

theorem tilePacket_pts {ε : Type} (env : Env ε) (s : Server ε) (cntW cntH : Nat)
    (mData : List Mem) (t : Nat) :
    (tilePacket env s cntW cntH mData t).2.pts = s.mFramesProcessed + t := rfl

/-- The tile batch: tile `t` gets `pts = mFramesProcessed + t`, every client
is sent the tile packets in grid order, and the counter advances by the tile
count plus one. -/
theorem tileBatch_effect {ε : Type} (env : Env ε) (s : Server ε) (buf : Mem)
    (linesize : Nat) (g : TileGrid) :
    (tileBatch env s buf linesize g).ptsLog = s.ptsLog ++
        (List.range (g.cntW * g.cntH)).map (fun t => s.mFramesProcessed + t) ∧
    (tileBatch env s buf linesize g).mFramesProcessed =
      s.mFramesProcessed + (g.cntW * g.cntH + 1) ∧
    (tileBatch env s buf linesize g).sent.map (fun e => (e.1, e.2.pts)) =
      s.sent.map (fun e => (e.1, e.2.pts)) ++
        (List.range (g.cntW * g.cntH)).flatMap
          (fun t => s.mClients.map (fun c => (c, s.mFramesProcessed + t))) ∧
    (tileBatch env s buf linesize g).mFrameBuffers = s.mFrameBuffers ∧
    (tileBatch env s buf linesize g).mMaxFrameBuffers = s.mMaxFrameBuffers := by
  unfold tileBatch
  refine ⟨?_, ?_, ?_, ?_, ?_⟩
  · simp only [sendPkt_batch_eq, List.map_map]
    rfl
  · simp only [sendPkt_batch_eq]
  · simp only [sendPkt_batch_eq, List.map_append, List.map_flatMap, List.map_map,
      List.flatMap_map]
    rfl
  · simp only [sendPkt_batch_eq]
  · simp only [sendPkt_batch_eq]

/-- With a client connected, the MJPEG codec and a frame beyond the RTP JPEG
size, `addBigFrame` runs the tile batch on the ceiling grid and returns
`true`. -/
theorem addBigFrame_tiled {ε : Type} (env : Env ε) (s : Server ε) (buf : Mem)
    (linesize : Nat) (hi : s.mIsInitialized = true) (hc : s.mClients ≠ [])
    (hm : s.mCodecId = .AV_CODEC_ID_MJPEG)
    (hbig : ¬ (s.mWidth ≤ env.MAX_WIDTH_RTP_JPEG ∧ s.mHeight ≤ env.MAX_HEIGHT_RTP_JPEG))
    (hMW : 1 ≤ env.MAX_WIDTH_JPEG) (hMH : 1 ≤ env.MAX_HEIGHT_JPEG) :
    ∃ g, g.cntW = ceilDiv s.mWidth env.MAX_WIDTH_JPEG ∧
      g.cntH = ceilDiv s.mHeight env.MAX_HEIGHT_JPEG ∧
      addBigFrame env s buf linesize = .ok (true, tileBatch env s buf linesize g) := by
  obtain ⟨sizes, hg, -, -⟩ := tileGrid_spec s.mWidth s.mHeight env.MAX_WIDTH_JPEG
    env.MAX_HEIGHT_JPEG hMW hMH
  have hguard : (!s.mIsInitialized || s.mClients.isEmpty) = false := by
    cases hcl : s.mClients with
    | nil => exact absurd hcl hc
    | cons a l => simp [hi]
  have h2 : ¬ (s.mCodecId ≠ .AV_CODEC_ID_MJPEG ∨
      (s.mWidth ≤ env.MAX_WIDTH_RTP_JPEG ∧ s.mHeight ≤ env.MAX_HEIGHT_RTP_JPEG)) := by
    rintro (h | h)
    · exact h hm
    · exact hbig h
  refine ⟨⟨ceilDiv s.mWidth env.MAX_WIDTH_JPEG, ceilDiv s.mHeight env.MAX_HEIGHT_JPEG, sizes⟩,
    rfl, rfl, ?_⟩
  unfold addBigFrame
  rw [hguard]
  simp only [Bool.false_eq_true, if_false, if_neg h2, hg]

/-- A returning `addBigFrame` appends to the `pts` record the values
`mFramesProcessed + t` for `t` below some tile count and never lowers the
counter below them. -/
theorem addBigFrame_effect {ε : Type} (env : Env ε) (s s1 : Server ε) (buf : Mem)
    (linesize : Nat) (b : Bool) (h : addBigFrame env s buf linesize = .ok (b, s1)) :
    ∃ n, s1.ptsLog = s.ptsLog ++ (List.range n).map (fun t => s.mFramesProcessed + t) ∧
      s.mFramesProcessed + n ≤ s1.mFramesProcessed := by
  unfold addBigFrame at h
  split_ifs at h with h1 h2
  · cases h
    exact ⟨0, by simp, le_refl _⟩
  · have hs1 : (addFrame s buf).2 = s1 := by
      simp only [Except.ok.injEq] at h
      rw [h]
    obtain ⟨-, -, -, e1, -, e2⟩ := addFrame_effect s buf
    rw [hs1] at e1 e2
    exact ⟨0, by simp [e1], by rw [e2]; exact le_refl _⟩
  · split at h
    · cases h
    · rename_i g hg
      simp only [Except.ok.injEq, Prod.mk.injEq] at h
      obtain ⟨e1, e2, -⟩ := tileBatch_effect env s buf linesize g
      rw [h.2] at e1 e2
      exact ⟨g.cntW * g.cntH, e1, by omega⟩

theorem pairwise_lt_append_range (l : List Nat) (c n : Nat)
    (hl : l.Pairwise (· < ·)) (hlt : ∀ p ∈ l, p < c) :
    (l ++ (List.range n).map (fun t => c + t)).Pairwise (· < ·) ∧
      ∀ p ∈ l ++ (List.range n).map (fun t => c + t), p < c + n ∨ (n = 0 ∧ p < c) := by
  constructor
  · rw [List.pairwise_append]
    refine ⟨hl, ?_, ?_⟩
    · rw [List.pairwise_map]
      exact (List.pairwise_lt_range n).imp (fun h => by omega)
    · intro a ha b hb
      obtain ⟨t, -, rfl⟩ := List.mem_map.mp hb
      have := hlt a ha
      omega
  · intro p hp
    rcases List.mem_append.mp hp with h | h
    · have := hlt p h
      omega
    · obtain ⟨t, ht, rfl⟩ := List.mem_map.mp h
      have := List.mem_range.mp ht
      omega

/-- The `pts` record stays strictly increasing and below the counter along
any sequence of encode calls. -/
theorem runCalls_invariant {ε : Type} (env : Env ε) (calls : List FrameCall) :
    ∀ (s s1 : Server ε), s.ptsLog.Pairwise (· < ·) →
      (∀ p ∈ s.ptsLog, p < s.mFramesProcessed) →
      runCalls env calls s = .ok s1 →
      s1.ptsLog.Pairwise (· < ·) ∧ (∀ p ∈ s1.ptsLog, p < s1.mFramesProcessed) ∧
      (∃ l, s1.ptsLog = s.ptsLog ++ l) ∧ s.mFramesProcessed ≤ s1.mFramesProcessed := by
  induction calls with
  | nil =>
    intro s s1 h1 h2 hrun
    simp only [runCalls, Except.ok.injEq] at hrun
    subst hrun
    exact ⟨h1, h2, ⟨[], by simp⟩, le_refl _⟩
  | cons call rest ih =>
    intro s s1 h1 h2 hrun
    have step : ∀ s2 : Server ε,
        (∃ n, s2.ptsLog = s.ptsLog ++ (List.range n).map (fun t => s.mFramesProcessed + t) ∧
          s.mFramesProcessed + n ≤ s2.mFramesProcessed) →
        runCalls env rest s2 = .ok s1 →
        s1.ptsLog.Pairwise (· < ·) ∧ (∀ p ∈ s1.ptsLog, p < s1.mFramesProcessed) ∧
        (∃ l, s1.ptsLog = s.ptsLog ++ l) ∧ s.mFramesProcessed ≤ s1.mFramesProcessed := by
      intro s2 ⟨n, e1, e2⟩ hrest
      obtain ⟨p1, p2⟩ := pairwise_lt_append_range s.ptsLog s.mFramesProcessed n h1 h2
      rw [← e1] at p1 p2
      obtain ⟨r1, r2, ⟨l, r3⟩, r4⟩ := ih s2 s1 p1
        (by intro p hp; have := p2 p hp; omega) hrest
      exact ⟨r1, r2, ⟨_, by rw [r3, e1, List.append_assoc]⟩, by omega⟩
    cases call with
    | internal fuel buf =>
      simp only [runCalls] at hrun
      split at hrun
      · cases hrun
      · rename_i b s2 hadd
        obtain ⟨-, -, -, -, e⟩ := addInternalFrame_effect env fuel _ _ _ _ hadd
        refine step s2 ?_ hrun
        rcases e with ⟨e1, e2⟩ | ⟨e1, e2⟩
        · exact ⟨0, by simp [e1], by rw [e2]; exact le_refl _⟩
        · exact ⟨1, by rw [e1]; rfl, by omega⟩
    | big buf linesize =>
      simp only [runCalls] at hrun
      split at hrun
      · cases hrun
      · rename_i b s2 hadd
        exact step s2 (addBigFrame_effect env _ _ _ _ _ hadd) hrun

/-! ### The `pts` carried by the packets sent -/

theorem pairwise_le_of_const (c : Nat) (l : List Nat) (h : ∀ p ∈ l, p = c) :
    l.Pairwise (· ≤ ·) := by
  induction l with
  | nil => exact List.Pairwise.nil
  | cons a l ih =>
    refine List.Pairwise.cons ?_ (ih (fun p hp => h p (List.mem_cons_of_mem _ hp)))
    intro b hb
    rw [h a (List.mem_cons_self _ _), h b (List.mem_cons_of_mem _ hb)]

/-- Every packet a returning `encodeWriteLoop` sends carries the `pts` of the
frame. -/
theorem encodeWriteLoop_sent {ε : Type} (env : Env ε) (frame : AVFrame) :
    ∀ (fuel : Nat) (s s1 : Server ε), encodeWriteLoop env frame fuel s = .ok s1 →
      ∃ new, s1.sent = s.sent ++ new ∧ ∀ e ∈ new, e.2.pts = frame.pts := by
  intro fuel
  induction fuel with
  | zero => intro s s1 h; simp [encodeWriteLoop] at h
  | succ fuel ih =>
    intro s s1 h
    simp only [encodeWriteLoop] at h
    split_ifs at h with h1 h2
    · cases h
      refine ⟨s.mClients.map (fun c => (c, AVPacket.mk frame.pts
        (env.avcodec_receive_packet s.mCtx).2.1)), ?_, ?_⟩
      · rw [sendPkt_eq]
      · intro e he
        obtain ⟨c, -, rfl⟩ := List.mem_map.mp he
        rfl
    · have hrec := ih _ _ h
      exact hrec
    · cases h
      exact ⟨[], (List.append_nil _).symm, (fun _ he => nomatch he)⟩

theorem encodeWriteFrame_sent {ε : Type} (env : Env ε) (fuel : Nat) (s s1 : Server ε)
    (frame : AVFrame) (h : encodeWriteFrame env fuel s frame = .ok s1) :
    ∃ new, s1.sent = s.sent ++ new ∧ ∀ e ∈ new, e.2.pts = frame.pts := by
  simp only [encodeWriteFrame] at h
  split_ifs at h with h1
  · cases h
    exact ⟨[], (List.append_nil _).symm, (fun _ he => nomatch he)⟩
  · have hloop := encodeWriteLoop_sent env frame fuel _ _ h
    exact hloop

theorem finishFrame_sent {ε : Type} (ret : Int) (s : Server ε) :
    (finishFrame ret s).2.sent = s.sent := by
  unfold finishFrame
  split_ifs <;> rfl

theorem finishFrame_of_eq {ε : Type} (ret : Int) (x s1 : Server ε) (b : Bool)
    (h : finishFrame ret x = (b, s1)) :
    s1.ptsLog = x.ptsLog ∧ s1.sent = x.sent ∧ x.mFramesProcessed ≤ s1.mFramesProcessed := by
  have hf := finishFrame_core ret x
  have hs := finishFrame_sent ret x
  rw [h] at hf hs
  simp only [Server.core, Prod.mk.injEq] at hf
  exact ⟨hf.2.1, hs, hf.1⟩

/-- A returning `addInternalFrame` either fails the client guard and leaves
the server as it is, or it records the current counter value, raises the
counter, and every packet it sends carries that value as its `pts`. -/
theorem addInternalFrame_stamp {ε : Type} (env : Env ε) (fuel : Nat) (s s1 : Server ε)
    (buf : Mem) (b : Bool) (h : addInternalFrame env fuel s buf = .ok (b, s1)) :
    ((!s.mIsInitialized || s.mClients.isEmpty) = true ∧ s1 = s) ∨
    (s1.ptsLog = s.ptsLog ++ [s.mFramesProcessed] ∧
      s.mFramesProcessed < s1.mFramesProcessed ∧
      ∃ new, s1.sent = s.sent ++ new ∧ ∀ e ∈ new, e.2.pts = s.mFramesProcessed) := by
  unfold addInternalFrame at h
  split_ifs at h with h1 h2
  · cases h
    exact Or.inl ⟨h1, rfl⟩
  · right
    simp only [encodeWithCodec] at h
    split at h
    · cases h
    · split at h
      · cases h
      · rename_i s3 henc
        simp only [Except.ok.injEq] at h
        have hc := encodeWriteFrame_core env fuel _ _ _ henc
        obtain ⟨new, hn1, hn2⟩ := encodeWriteFrame_sent env fuel _ _ _ henc
        obtain ⟨f1, f2, f3⟩ := finishFrame_of_eq _ _ _ _ h
        simp only [Server.core, Prod.mk.injEq] at hc
        obtain ⟨c1, c2, -⟩ := hc
        exact ⟨by rw [f1, c2], by omega, new, by rw [f2, hn1], hn2⟩
  · right
    by_cases hm : s.mCodecId = .AV_CODEC_ID_MJPEG
    · simp only [encodeWithJpegFunction, if_pos hm, Except.ok.injEq] at h
      obtain ⟨f1, f2, f3⟩ := finishFrame_of_eq _ _ _ _ h
      rw [sendPkt_eq] at f1 f2 f3
      refine ⟨f1, Nat.lt_of_succ_le f3, _, f2, ?_⟩
      intro e he
      obtain ⟨c, -, rfl⟩ := List.mem_map.mp he
      rfl
    · simp [encodeWithJpegFunction, if_neg hm] at h

/-- The `pts` of the packets the tile batch sends, in send order. -/
theorem tileBatch_sent_pts {ε : Type} (env : Env ε) (s : Server ε) (buf : Mem)
    (linesize : Nat) (g : TileGrid) :
    (tileBatch env s buf linesize g).sent.map (fun e => e.2.pts) =
      s.sent.map (fun e => e.2.pts) ++
        (List.range (g.cntW * g.cntH)).flatMap
          (fun t => s.mClients.map (fun _ => s.mFramesProcessed + t)) := by
  unfold tileBatch
  simp only [sendPkt_batch_eq, List.map_append, List.map_flatMap, List.map_map,
    List.flatMap_map]
  rfl

/-- What a returning encode call adds to the `pts` record and to the packets
sent: the record grows by `n` consecutive values from the counter, the
counter passes them, and the packets sent carry values among them, never
decreasing. -/
theorem frameCall_stamp {ε : Type} (env : Env ε) (call : FrameCall) (s s2 : Server ε)
    (h : runCalls env [call] s = .ok s2) :
    ∃ (n : Nat) (sentPts : List Nat),
      s2.ptsLog = s.ptsLog ++ (List.range n).map (fun t => s.mFramesProcessed + t) ∧
      s.mFramesProcessed + n ≤ s2.mFramesProcessed ∧
      s2.sent.map (fun e => e.2.pts) = s.sent.map (fun e => e.2.pts) ++ sentPts ∧
      sentPts.Pairwise (· ≤ ·) ∧
      ∀ p ∈ sentPts, s.mFramesProcessed ≤ p ∧ p < s.mFramesProcessed + n := by
  cases call with
  | internal fuel buf =>
    simp only [runCalls] at h
    split at h
    · cases h
    · rename_i b s3 hadd
      simp only [Except.ok.injEq] at h
      subst h
      rcases addInternalFrame_stamp env fuel _ _ _ _ hadd with ⟨-, e0⟩ | ⟨e1, e2, new, e3, e4⟩
      · rw [e0]
        exact ⟨0, [], by simp, le_refl _, by simp, List.Pairwise.nil,
          (fun _ hp => nomatch hp)⟩
      · have hall : ∀ p ∈ new.map (fun e => e.2.pts), p = s.mFramesProcessed := by
          intro p hp
          obtain ⟨e, he, rfl⟩ := List.mem_map.mp hp
          exact e4 e he
        refine ⟨1, new.map (fun e => e.2.pts), by rw [e1]; rfl, by omega,
          by rw [e3, List.map_append], pairwise_le_of_const _ _ hall, ?_⟩
        intro p hp
        have := hall p hp
        omega
  | big buf linesize =>
    simp only [runCalls] at h
    split at h
    · cases h
    · rename_i b s3 hadd
      simp only [Except.ok.injEq] at h
      subst h
      unfold addBigFrame at hadd
      split_ifs at hadd with h1 h2
      · cases hadd
        exact ⟨0, [], by simp, le_refl _, by simp, List.Pairwise.nil,
          (fun _ hp => nomatch hp)⟩
      · have hs1 : (addFrame s buf).2 = s3 := by
          simp only [Except.ok.injEq] at hadd
          rw [hadd]
        obtain ⟨-, -, -, e1, e2, e3⟩ := addFrame_effect s buf
        rw [hs1] at e1 e2 e3
        exact ⟨0, [], by simp [e1], by rw [e3]; exact le_refl _, by simp [e2],
          List.Pairwise.nil, (fun _ hp => nomatch hp)⟩
      · split at hadd
        · cases hadd
        · rename_i g hg
          simp only [Except.ok.injEq, Prod.mk.injEq] at hadd
          obtain ⟨e1, e2, -⟩ := tileBatch_effect env s buf linesize g
          have e3 := tileBatch_sent_pts env s buf linesize g
          rw [hadd.2] at e1 e2 e3
          refine ⟨g.cntW * g.cntH, _, e1, by omega, e3, ?_, ?_⟩
          · rw [List.pairwise_flatMap]
            constructor
            · intro t _
              apply pairwise_le_of_const (s.mFramesProcessed + t)
              intro p hp
              obtain ⟨c, -, rfl⟩ := List.mem_map.mp hp
              rfl
            · refine (List.pairwise_lt_range _).imp ?_
              intro t1 t2 hlt x hx y hy
              obtain ⟨c1, -, rfl⟩ := List.mem_map.mp hx
              obtain ⟨c2, -, rfl⟩ := List.mem_map.mp hy
              omega
          · intro p hp
            obtain ⟨t, ht, hp2⟩ := List.mem_flatMap.mp hp
            obtain ⟨c, -, rfl⟩ := List.mem_map.mp hp2
            have := List.mem_range.mp ht
            omega

theorem runCalls_cons {ε : Type} (env : Env ε) (call : FrameCall) (rest : List FrameCall)
    (s s1 : Server ε) (h : runCalls env (call :: rest) s = .ok s1) :
    ∃ s2, runCalls env [call] s = .ok s2 ∧ runCalls env rest s2 = .ok s1 := by
  cases call with
  | internal fuel buf =>
    simp only [runCalls] at h
    split at h
    · cases h
    · rename_i b s2 hadd
      exact ⟨s2, by simp only [runCalls, hadd], h⟩
  | big buf linesize =>
    simp only [runCalls] at h
    split at h
    · cases h
    · rename_i b s2 hadd
      exact ⟨s2, by simp only [runCalls, hadd], h⟩

/-- Along any sequence of encode calls the `pts` record stays strictly
increasing and below the counter, every packet sent carries a recorded `pts`,
and the `pts` of the packets never decrease in send order. -/
theorem runCalls_sent_invariant {ε : Type} (env : Env ε) (calls : List FrameCall) :
    ∀ (s s1 : Server ε), s.ptsLog.Pairwise (· < ·) →
      (∀ p ∈ s.ptsLog, p < s.mFramesProcessed) →
      (∀ p ∈ s.sent.map (fun e => e.2.pts), p ∈ s.ptsLog) →
      (s.sent.map (fun e => e.2.pts)).Pairwise (· ≤ ·) →
      runCalls env calls s = .ok s1 →
      (∀ p ∈ s1.sent.map (fun e => e.2.pts), p ∈ s1.ptsLog) ∧
      (s1.sent.map (fun e => e.2.pts)).Pairwise (· ≤ ·) := by
  induction calls with
  | nil =>
    intro s s1 _ _ h3 h4 hrun
    simp only [runCalls, Except.ok.injEq] at hrun
    subst hrun
    exact ⟨h3, h4⟩
  | cons call rest ih =>
    intro s s1 h1 h2 h3 h4 hrun
    obtain ⟨s2, hcall, hrest⟩ := runCalls_cons env call rest s s1 hrun
    obtain ⟨n, sentPts, e1, e2, e3, e4, e5⟩ := frameCall_stamp env call s s2 hcall
    obtain ⟨p1, p2⟩ := pairwise_lt_append_range s.ptsLog s.mFramesProcessed n h1 h2
    rw [← e1] at p1 p2
    refine ih s2 s1 p1 (by intro p hp; have := p2 p hp; omega) ?_ ?_ hrest
    · intro p hp
      rw [e3] at hp
      rw [e1]
      rcases List.mem_append.mp hp with hp | hp
      · exact List.mem_append_left _ (h3 p hp)
      · obtain ⟨q1, q2⟩ := e5 p hp
        refine List.mem_append_right _ (List.mem_map.mpr ⟨p - s.mFramesProcessed, ?_, ?_⟩)
        · rw [List.mem_range]; omega
        · omega
    · rw [e3, List.pairwise_append]
      refine ⟨h4, e4, ?_⟩
      intro a ha b hb
      have := h2 a (h3 a ha)
      have := (e5 b hb).1
      omega

/-- C9: along any sequence of `addInternalFrame` and `addBigFrame` calls that
starts from a consistent record (as on a new server), the `pts` fields stamped
on frames and packets form a strictly increasing record below the counter:
every `pts` given to a frame or tile exceeds every `pts` given earlier.  Every
packet sent carries a recorded `pts`, and in send order the `pts` of the
packets never decrease.  A returning `addInternalFrame` that passes the client
guard stamps the current counter value, raises the counter, and every packet
it sends carries that value.  In the tiled path tile `t` gets
`pts = mFramesProcessed + t`, each client is sent the tile packets in grid
order, and the counter advances by the tile count plus one. -/
theorem pts_strictly_increasing {ε : Type} (env : Env ε) (calls : List FrameCall)
    (s s1 : Server ε) (hlog : s.ptsLog.Pairwise (· < ·))
    (hlt : ∀ p ∈ s.ptsLog, p < s.mFramesProcessed)
    (hsent : ∀ p ∈ s.sent.map (fun e => e.2.pts), p ∈ s.ptsLog)
    (hord : (s.sent.map (fun e => e.2.pts)).Pairwise (· ≤ ·))
    (hrun : runCalls env calls s = .ok s1) :
    s1.ptsLog.Pairwise (· < ·) ∧ (∃ l, s1.ptsLog = s.ptsLog ++ l) ∧
    (∀ p ∈ s1.ptsLog, p < s1.mFramesProcessed) ∧
    (∀ p ∈ s1.sent.map (fun e => e.2.pts), p ∈ s1.ptsLog) ∧
    (s1.sent.map (fun e => e.2.pts)).Pairwise (· ≤ ·) ∧
    (∀ (s2 s3 : Server ε) (fuel : Nat) (buf : Mem) (b : Bool),
      addInternalFrame env fuel s2 buf = .ok (b, s3) →
      ((!s2.mIsInitialized || s2.mClients.isEmpty) = true ∧ s3 = s2) ∨
      (s3.ptsLog = s2.ptsLog ++ [s2.mFramesProcessed] ∧
        s2.mFramesProcessed < s3.mFramesProcessed ∧
        ∃ new, s3.sent = s2.sent ++ new ∧ ∀ e ∈ new, e.2.pts = s2.mFramesProcessed)) ∧
    (∀ (s2 : Server ε) (buf : Mem) (linesize : Nat),
      s2.mIsInitialized = true → s2.mClients ≠ [] →
      s2.mCodecId = .AV_CODEC_ID_MJPEG →
      ¬ (s2.mWidth ≤ env.MAX_WIDTH_RTP_JPEG ∧ s2.mHeight ≤ env.MAX_HEIGHT_RTP_JPEG) →
      1 ≤ env.MAX_WIDTH_JPEG → 1 ≤ env.MAX_HEIGHT_JPEG →
      ∃ s3, addBigFrame env s2 buf linesize = .ok (true, s3) ∧
        s3.ptsLog = s2.ptsLog ++
          (List.range (ceilDiv s2.mWidth env.MAX_WIDTH_JPEG *
            ceilDiv s2.mHeight env.MAX_HEIGHT_JPEG)).map (fun t => s2.mFramesProcessed + t) ∧
        s3.sent.map (fun e => (e.1, e.2.pts)) = s2.sent.map (fun e => (e.1, e.2.pts)) ++
          (List.range (ceilDiv s2.mWidth env.MAX_WIDTH_JPEG *
            ceilDiv s2.mHeight env.MAX_HEIGHT_JPEG)).flatMap
              (fun t => s2.mClients.map (fun c => (c, s2.mFramesProcessed + t))) ∧
        s3.mFramesProcessed = s2.mFramesProcessed +
          (ceilDiv s2.mWidth env.MAX_WIDTH_JPEG *
            ceilDiv s2.mHeight env.MAX_HEIGHT_JPEG + 1)) := by
  obtain ⟨r1, r2, r3, -⟩ := runCalls_invariant env calls s s1 hlog hlt hrun
  obtain ⟨q1, q2⟩ := runCalls_sent_invariant env calls s s1 hlog hlt hsent hord hrun
  refine ⟨r1, r3, r2, q1, q2, ?_, ?_⟩
  · intro s2 s3 fuel buf b hadd
    exact addInternalFrame_stamp env fuel s2 s3 buf b hadd
  · intro s2 buf linesize hi hc hm hbig hMW hMH
    obtain ⟨g, gw, gh, hadd⟩ := addBigFrame_tiled env s2 buf linesize hi hc hm hbig hMW hMH
    obtain ⟨e1, e2, e3, -, -⟩ := tileBatch_effect env s2 buf linesize g
    rw [gw, gh] at e1 e2 e3
    exact ⟨_, hadd, e1, e3, e2⟩

/-- C9 on a 1920x1080 MJPEG server with one client and 640x480 tiles: a
single frame, a tiled frame of nine tiles and another single frame get the
`pts` values 0, then 2 to 10, then 12, and the packets sent carry these
values in this order. -/
theorem pts_strictly_increasing_witness :
    ∃ s1 : Server Unit,
      (sampleServer 1920 1080 5 [7]).ptsLog.Pairwise (· < ·) ∧
      (∀ p ∈ (sampleServer 1920 1080 5 [7]).ptsLog,
        p < (sampleServer 1920 1080 5 [7]).mFramesProcessed) ∧
      (∀ p ∈ (sampleServer 1920 1080 5 [7]).sent.map (fun e => e.2.pts),
        p ∈ (sampleServer 1920 1080 5 [7]).ptsLog) ∧
      ((sampleServer 1920 1080 5 [7]).sent.map (fun e => e.2.pts)).Pairwise (· ≤ ·) ∧
      runCalls sampleEnv
        [.internal 1 (fun _ => 0), .big (fun _ => 0) 0, .internal 1 (fun _ => 0)]
        (sampleServer 1920 1080 5 [7]) = .ok s1 ∧
      s1.ptsLog = [0, 2, 3, 4, 5, 6, 7, 8, 9, 10, 12] ∧ s1.mFramesProcessed = 14 ∧
      s1.sent.map (fun e => e.2.pts) = [0, 2, 3, 4, 5, 6, 7, 8, 9, 10, 12] ∧
      (s1.ptsLog.Pairwise (· < ·) ∧
        (∃ l, s1.ptsLog = (sampleServer 1920 1080 5 [7]).ptsLog ++ l) ∧
        (∀ p ∈ s1.ptsLog, p < s1.mFramesProcessed) ∧
        (∀ p ∈ s1.sent.map (fun e => e.2.pts), p ∈ s1.ptsLog) ∧
        (s1.sent.map (fun e => e.2.pts)).Pairwise (· ≤ ·) ∧
        (∀ (s2 s3 : Server Unit) (fuel : Nat) (buf : Mem) (b : Bool),
          addInternalFrame sampleEnv fuel s2 buf = .ok (b, s3) →
          ((!s2.mIsInitialized || s2.mClients.isEmpty) = true ∧ s3 = s2) ∨
          (s3.ptsLog = s2.ptsLog ++ [s2.mFramesProcessed] ∧
            s2.mFramesProcessed < s3.mFramesProcessed ∧
            ∃ new, s3.sent = s2.sent ++ new ∧
              ∀ e ∈ new, e.2.pts = s2.mFramesProcessed)) ∧
        (∀ (s2 : Server Unit) (buf : Mem) (linesize : Nat),
          s2.mIsInitialized = true → s2.mClients ≠ [] →
          s2.mCodecId = .AV_CODEC_ID_MJPEG →
          ¬ (s2.mWidth ≤ sampleEnv.MAX_WIDTH_RTP_JPEG ∧
            s2.mHeight ≤ sampleEnv.MAX_HEIGHT_RTP_JPEG) →
          1 ≤ sampleEnv.MAX_WIDTH_JPEG → 1 ≤ sampleEnv.MAX_HEIGHT_JPEG →
          ∃ s3, addBigFrame sampleEnv s2 buf linesize = .ok (true, s3) ∧
            s3.ptsLog = s2.ptsLog ++
              (List.range (ceilDiv s2.mWidth sampleEnv.MAX_WIDTH_JPEG *
                ceilDiv s2.mHeight sampleEnv.MAX_HEIGHT_JPEG)).map
                  (fun t => s2.mFramesProcessed + t) ∧
            s3.sent.map (fun e => (e.1, e.2.pts)) = s2.sent.map (fun e => (e.1, e.2.pts)) ++
              (List.range (ceilDiv s2.mWidth sampleEnv.MAX_WIDTH_JPEG *
                ceilDiv s2.mHeight sampleEnv.MAX_HEIGHT_JPEG)).flatMap
                  (fun t => s2.mClients.map (fun c => (c, s2.mFramesProcessed + t))) ∧
            s3.mFramesProcessed = s2.mFramesProcessed +
              (ceilDiv s2.mWidth sampleEnv.MAX_WIDTH_JPEG *
                ceilDiv s2.mHeight sampleEnv.MAX_HEIGHT_JPEG + 1))) := by
  have hval : (match runCalls sampleEnv
      [.internal 1 (fun _ => 0), .big (fun _ => 0) 0, .internal 1 (fun _ => 0)]
      (sampleServer 1920 1080 5 [7]) with
    | .ok s1 => (s1.ptsLog, s1.mFramesProcessed, s1.sent.map (fun e => e.2.pts))
    | .error _ => ([], 0, [])) =
      ([0, 2, 3, 4, 5, 6, 7, 8, 9, 10, 12], 14, [0, 2, 3, 4, 5, 6, 7, 8, 9, 10, 12]) := by
    decide
  cases hrun : runCalls sampleEnv
      [.internal 1 (fun _ => 0), .big (fun _ => 0) 0, .internal 1 (fun _ => 0)]
      (sampleServer 1920 1080 5 [7]) with
  | error e =>
    rw [hrun] at hval
    simp at hval
  | ok s1 =>
    rw [hrun] at hval
    simp only [Prod.mk.injEq] at hval
    exact ⟨s1, List.Pairwise.nil, (fun _ hp => nomatch hp), (fun _ hp => nomatch hp),
      List.Pairwise.nil, rfl, hval.1, hval.2.1, hval.2.2,
      pts_strictly_increasing sampleEnv
        [.internal 1 (fun _ => 0), .big (fun _ => 0) 0, .internal 1 (fun _ => 0)]
        (sampleServer 1920 1080 5 [7]) s1 List.Pairwise.nil (fun _ hp => nomatch hp)
        (fun _ hp => nomatch hp) List.Pairwise.nil hrun⟩

/-! ## Early rejection -/

/-- C10: when no client has ever connected or the client set is empty,
`addInternalFrame` and `addBigFrame` return `false` and leave the whole server
state as it was: nothing is converted, encoded or sent and `mFramesProcessed`
keeps its value. -/
theorem no_client_rejects {ε : Type} (env : Env ε) (fuel : Nat) (s : Server ε) (buf : Mem)
    (linesize : Nat) (h : s.mIsInitialized = false ∨ s.mClients = []) :
    addInternalFrame env fuel s buf = .ok (false, s) ∧
    addBigFrame env s buf linesize = .ok (false, s) := by
  have hguard : (!s.mIsInitialized || s.mClients.isEmpty) = true := by
    rcases h with h | h
    · simp [h]
    · simp [h]
  constructor
  · unfold addInternalFrame
    rw [if_pos hguard]
  · unfold addBigFrame
    rw [if_pos hguard]

/-- Witness for C10: a server without clients, and one whose only client has
been removed. -/
theorem no_client_rejects_witness :
    ((sampleServer 1920 1080 5 []).mIsInitialized = false ∨
      (sampleServer 1920 1080 5 []).mClients = []) ∧
    (addInternalFrame sampleEnv 1 (sampleServer 1920 1080 5 []) (fun _ => 0) =
        .ok (false, sampleServer 1920 1080 5 []) ∧
      addBigFrame sampleEnv (sampleServer 1920 1080 5 []) (fun _ => 0) 0 =
        .ok (false, sampleServer 1920 1080 5 [])) :=
  ⟨Or.inl rfl, no_client_rejects sampleEnv 1 (sampleServer 1920 1080 5 []) (fun _ => 0) 0
    (Or.inl rfl)⟩

/-! ## `QString` searches -/

theorem startsWith_append (needle rest : List Char) : startsWith needle (needle ++ rest) = true := by
  induction needle with
  | nil => rfl
  | cons a as ih => simp [startsWith, ih]

/-- A text that begins with the needle has it at index 0. -/
theorem indexOf_append_self (a : Char) (as rest : List Char) :
    indexOf (a :: as) (a :: as ++ rest) = 0 := by
  have h : startsWith (a :: as) (a :: (as ++ rest)) = true := startsWith_append (a :: as) rest
  show indexOfFrom (a :: as) (a :: (as ++ rest)) 0 = 0
  unfold indexOfFrom
  rw [if_pos h]
  rfl

theorem indexOfFrom_char_absent (ch : Char) (xs : List Char) (i : Nat) (h : ch ∉ xs) :
    indexOfFrom [ch] xs i = -1 := by
  induction xs generalizing i with
  | nil => simp [indexOfFrom]
  | cons x xs ih =>
    have hx : ch ≠ x := fun e => h (by simp [e])
    have hxs : ch ∉ xs := fun e => h (by simp [e])
    have hs : startsWith [ch] (x :: xs) = false := by simp [startsWith, hx]
    unfold indexOfFrom
    rw [hs]
    simp only [Bool.false_eq_true, if_false]
    exact ih _ hxs

theorem indexOfFrom_char_first (ch : Char) (xs ys : List Char) (i : Nat) (h : ch ∉ xs) :
    indexOfFrom [ch] (xs ++ ch :: ys) i = ((i + xs.length : Nat) : Int) := by
  induction xs generalizing i with
  | nil =>
    have hs : startsWith [ch] (ch :: ys) = true := by simp [startsWith]
    show indexOfFrom [ch] (ch :: ys) i = _
    unfold indexOfFrom
    rw [if_pos hs]
    simp
  | cons x xs ih =>
    have hx : ch ≠ x := fun e => h (by simp [e])
    have hxs : ch ∉ xs := fun e => h (by simp [e])
    have hs : startsWith [ch] (x :: (xs ++ ch :: ys)) = false := by simp [startsWith, hx]
    show indexOfFrom [ch] (x :: (xs ++ ch :: ys)) i = _
    unfold indexOfFrom
    rw [hs]
    simp only [Bool.false_eq_true, if_false]
    rw [ih _ hxs, List.length_cons]
    congr 1
    omega

/-! ## `startServer` -/

/-- The members the constructor takes from its arguments. -/
theorem construct_parameters {ε : Type} (env : Env ε) (lib : CodecLib)
    (width height channels : Nat) (url : List Char) (encType : EncoderType) (bitrate : Nat) :
    (construct env lib width height channels url encType bitrate).mWidth = width ∧
    (construct env lib width height channels url encType bitrate).mHeight = height ∧
    (construct env lib width height channels url encType bitrate).mChannels = channels ∧
    (construct env lib width height channels url encType bitrate).mUrl = url ∧
    (construct env lib width height channels url encType bitrate).mThread = false ∧
    (construct env lib width height channels url encType bitrate).doServerQueued = false := by
  unfold construct
  simp only
  split
  · exact ⟨rfl, rfl, rfl, rfl, rfl, rfl⟩
  · split_ifs <;> exact ⟨rfl, rfl, rfl, rfl, rfl, rfl⟩

/-- Every error the constructor flags comes with a message. -/
theorem construct_error_message {ε : Type} (env : Env ε) (lib : CodecLib)
    (width height channels : Nat) (url : List Char) (encType : EncoderType) (bitrate : Nat)
    (h : (construct env lib width height channels url encType bitrate).isError = true) :
    (construct env lib width height channels url encType bitrate).errorStr ≠ [] := by
  have hmsg : ∀ rest : List Char, "avcodec_open2 failed, code: ".toList ++ rest ≠ [] := by
    intro rest
    exact List.append_ne_nil_of_left_ne_nil (by decide) rest
  unfold construct at h ⊢
  simp only at h ⊢
  split
  · show "Codec not found".toList ≠ []
    decide
  · rename_i codec hfound
    rw [hfound] at h
    simp only at h
    by_cases hret : lib.avcodec_open2 codec
        (if codec = .AV_CODEC_ID_MJPEG ∧
            (env.MAX_WIDTH_RTP_JPEG < width ∨ env.MAX_HEIGHT_RTP_JPEG < height)
          then env.MAX_WIDTH_JPEG else width)
        (if codec = .AV_CODEC_ID_MJPEG ∧
            (env.MAX_WIDTH_RTP_JPEG < width ∨ env.MAX_HEIGHT_RTP_JPEG < height)
          then env.MAX_HEIGHT_JPEG else height) bitrate < 0
    · rw [if_pos hret]
      exact hmsg _
    · rw [if_neg hret] at h
      simp [Control.isError] at h

/-- The parameter check of `startServer` returns `false` and changes no
member. -/
theorem startServer_unconfigured (toUInt : List Char → Nat) (c : Control)
    (h : c.mWidth = 0 ∨ c.mHeight = 0 ∨ c.mChannels = 0 ∨ c.mUrl.isEmpty = true) :
    startServer toUInt c = (false, c) := by
  unfold startServer
  by_cases he : c.mIsError = true
  · rw [if_pos he]
  · rw [if_neg he, if_pos h]

/-- The three rejecting branches of `startServer` on a configured server that
is not in error: the text `rtsp://` does not occur in the URL, or no `:`
follows the first seven characters, or `toUInt` of the port text is 0.  Each
returns `false`, sets the error flag, leaves the message as it was and
creates no thread. -/
theorem startServer_rejects (toUInt : List Char → Nat) (c : Control)
    (herr : c.mIsError = false) (hw : c.mWidth ≠ 0) (hh : c.mHeight ≠ 0)
    (hc : c.mChannels ≠ 0) (hu : c.mUrl ≠ [])
    (hbad : indexOf "rtsp://".toList c.mUrl < 0 ∨
      indexOf ":".toList (c.mUrl.drop 7) < 0 ∨
      toUInt (portText
        ((c.mUrl.drop 7).drop ((indexOf ":".toList (c.mUrl.drop 7)).toNat + 1))) = 0) :
    (startServer toUInt c).1 = false ∧ (startServer toUInt c).2.mIsError = true ∧
    (startServer toUInt c).2.mErrStr = c.mErrStr ∧
    (startServer toUInt c).2.mThread = c.mThread ∧
    (startServer toUInt c).2.doServerQueued = c.doServerQueued := by
  have hcfg : ¬ (c.mWidth = 0 ∨ c.mHeight = 0 ∨ c.mChannels = 0 ∨ c.mUrl.isEmpty = true) := by
    rintro (h | h | h | h)
    · exact hw h
    · exact hh h
    · exact hc h
    · exact hu (List.isEmpty_iff.mp h)
  unfold startServer
  rw [herr]
  simp only [Bool.false_eq_true, if_false, if_neg hcfg]
  by_cases h1 : 0 ≤ indexOf "rtsp://".toList c.mUrl
  · rw [if_pos h1]
    by_cases h2 : 0 ≤ indexOf ":".toList (c.mUrl.drop 7)
    · rw [if_pos h2]
      have h3 : toUInt (portText
          ((c.mUrl.drop 7).drop ((indexOf ":".toList (c.mUrl.drop 7)).toNat + 1))) = 0 := by
        rcases hbad with h | h | h
        · omega
        · omega
        · exact h
      rw [if_pos h3]
      exact ⟨rfl, rfl, rfl, rfl, rfl⟩
    · rw [if_neg h2]
      exact ⟨rfl, rfl, rfl, rfl, rfl⟩
  · rw [if_neg h1]
    exact ⟨rfl, rfl, rfl, rfl, rfl⟩

/-- The port text of `digits` followed by nothing or by `/path`. -/
theorem portText_digits (digits : List Char) (path : Option (List Char))
    (hd : '/' ∉ digits) :
    portText (digits ++ pathTail path) = digits := by
  cases path with
  | none =>
    have h : indexOf "/".toList (digits ++ pathTail none) = -1 := by
      show indexOf "/".toList (digits ++ []) = -1
      rw [List.append_nil]
      exact indexOfFrom_char_absent '/' digits 0 hd
    simp only [portText, h]
    simp [pathTail]
  | some p =>
    have h : indexOf "/".toList (digits ++ pathTail (some p)) =
        ((0 + digits.length : Nat) : Int) :=
      indexOfFrom_char_first '/' digits p 0 hd
    simp only [portText, h]
    simp

/-- The accepting branch of `startServer` on a URL
`rtsp://host:digits` or `rtsp://host:digits/path`. -/
theorem startServer_wellformed (toUInt : List Char → Nat) (c : Control)
    (host digits : List Char) (path : Option (List Char)) (p : Nat)
    (herr : c.mIsError = false) (hw : c.mWidth ≠ 0) (hh : c.mHeight ≠ 0)
    (hc : c.mChannels ≠ 0)
    (hurl : c.mUrl = "rtsp://".toList ++ (host ++ (':' ::
      (digits ++ pathTail path))))
    (hhost : ':' ∉ host) (hdigits : ∀ ch ∈ digits, ch.isDigit = true)
    (hp : toUInt digits = p) (hp0 : p ≠ 0) :
    startServer toUInt c =
      (true, { c with mHost := host, mPort := p, mThread := true, doServerQueued := true }) := by
  have hslash : '/' ∉ digits := fun hmem => by
    have := hdigits '/' hmem
    exact absurd this (by decide)
  have hne : c.mUrl ≠ [] := by rw [hurl]; simp
  have hcfg : ¬ (c.mWidth = 0 ∨ c.mHeight = 0 ∨ c.mChannels = 0 ∨ c.mUrl.isEmpty = true) := by
    rintro (h | h | h | h)
    · exact hw h
    · exact hh h
    · exact hc h
    · exact hne (List.isEmpty_iff.mp h)
  have h1 : indexOf "rtsp://".toList c.mUrl = 0 := by
    rw [hurl]
    exact indexOf_append_self 'r' ['t', 's', 'p', ':', '/', '/'] _
  have hdrop : c.mUrl.drop 7 =
      host ++ ':' :: (digits ++ pathTail path) := by
    rw [hurl]
    rfl
  have h2 : indexOf ":".toList (c.mUrl.drop 7) = ((0 + host.length : Nat) : Int) := by
    rw [hdrop]
    exact indexOfFrom_char_first ':' host _ 0 hhost
  have htake : (c.mUrl.drop 7).take host.length = host := by
    rw [hdrop]
    exact List.take_left' rfl
  have hrest : (c.mUrl.drop 7).drop (host.length + 1) =
      digits ++ pathTail path := by
    rw [hdrop]
    have e : host ++ ':' :: (digits ++ pathTail path) =
        (host ++ [':']) ++ (digits ++ pathTail path) := by
      simp
    rw [e]
    exact List.drop_left' (by simp)
  unfold startServer
  rw [herr]
  simp only [Bool.false_eq_true, if_false, if_neg hcfg, h1, h2, le_refl, if_true,
    Nat.zero_add, Int.toNat_ofNat, Int.natCast_nonneg, htake, hrest,
    portText_digits digits path hslash, hp, hp0]

/-- C14: on a configured server that is not in error, for a URL
`rtsp://host:digits` with an optional `/path`, where `host` has no `:` and
`digits` is a text of decimal digits that `toUInt` reads as `p ≠ 0`,
`startServer` returns `true`, leaves the error flag false, sets the port to
`p` and the listening address to the text `host`, whatever the path, and
starts the server thread. -/
theorem startServer_accepts (toUInt : List Char → Nat) (c : Control)
    (host digits : List Char) (path : Option (List Char)) (p : Nat)
    (herr : c.isError = false) (hw : c.mWidth ≠ 0) (hh : c.mHeight ≠ 0)
    (hc : c.mChannels ≠ 0)
    (hurl : c.mUrl = "rtsp://".toList ++ (host ++ (':' ::
      (digits ++ pathTail path))))
    (hhost : ':' ∉ host) (hdigits : ∀ ch ∈ digits, ch.isDigit = true)
    (hp : toUInt digits = p) (hp0 : p ≠ 0) :
    (startServer toUInt c).1 = true ∧ (startServer toUInt c).2.isError = false ∧
    (startServer toUInt c).2.mPort = p ∧ (startServer toUInt c).2.mHost = host ∧
    (startServer toUInt c).2.mThread = true ∧
    (startServer toUInt c).2.doServerQueued = true := by
  rw [startServer_wellformed toUInt c host digits path p herr hw hh hc hurl hhost hdigits hp hp0]
  exact ⟨rfl, herr, rfl, rfl, rfl, rfl⟩

/-- C14 at `rtsp://127.0.0.1:1234/live` on a 640x480 MJPEG server. -/
theorem startServer_accepts_witness :
    ((construct sampleEnv sampleLib 640 480 3 "rtsp://127.0.0.1:1234/live".toList
        .etJPEG 1000).isError = false ∧
      ':' ∉ "127.0.0.1".toList ∧ (∀ ch ∈ "1234".toList, ch.isDigit = true) ∧
      decimalToUInt "1234".toList = 1234 ∧ 1234 ≠ 0) ∧
    ((startServer decimalToUInt (construct sampleEnv sampleLib 640 480 3
        "rtsp://127.0.0.1:1234/live".toList .etJPEG 1000)).1 = true ∧
      (startServer decimalToUInt (construct sampleEnv sampleLib 640 480 3
        "rtsp://127.0.0.1:1234/live".toList .etJPEG 1000)).2.isError = false ∧
      (startServer decimalToUInt (construct sampleEnv sampleLib 640 480 3
        "rtsp://127.0.0.1:1234/live".toList .etJPEG 1000)).2.mPort = 1234 ∧
      (startServer decimalToUInt (construct sampleEnv sampleLib 640 480 3
        "rtsp://127.0.0.1:1234/live".toList .etJPEG 1000)).2.mHost = "127.0.0.1".toList ∧
      (startServer decimalToUInt (construct sampleEnv sampleLib 640 480 3
        "rtsp://127.0.0.1:1234/live".toList .etJPEG 1000)).2.mThread = true ∧
      (startServer decimalToUInt (construct sampleEnv sampleLib 640 480 3
        "rtsp://127.0.0.1:1234/live".toList .etJPEG 1000)).2.doServerQueued = true) :=
  ⟨⟨by decide, by decide, by decide, by decide, by decide⟩,
    startServer_accepts decimalToUInt
      (construct sampleEnv sampleLib 640 480 3 "rtsp://127.0.0.1:1234/live".toList .etJPEG 1000)
      "127.0.0.1".toList "1234".toList (some "live".toList) 1234
      (by decide) (by decide) (by decide) (by decide) (by decide) (by decide) (by decide)
      (by decide) (by decide)⟩

/-- C13 at the URL `1234567h:80/rtsp://`, which does not begin with `rtsp://`:
the text occurs later in the URL, so `indexOf` is not negative; the first
seven characters are dropped, `h` is taken as the host and `80` as the port,
and `startServer` returns `true` with the error flag clear and the server
thread started.  The URL `127.0.0.1:1234`, in which `rtsp://` does not occur,
is rejected with the error flag set and no thread. -/
theorem startServer_misplaced_scheme_accepted :
    startsWith "rtsp://".toList "1234567h:80/rtsp://".toList = false ∧
    indexOf "rtsp://".toList "1234567h:80/rtsp://".toList = 12 ∧
    (construct sampleEnv sampleLib 640 480 3 "1234567h:80/rtsp://".toList
      .etJPEG 1000).isError = false ∧
    startServer decimalToUInt
        (construct sampleEnv sampleLib 640 480 3 "1234567h:80/rtsp://".toList .etJPEG 1000) =
      (true,
        { construct sampleEnv sampleLib 640 480 3 "1234567h:80/rtsp://".toList .etJPEG 1000 with
          mHost := "h".toList, mPort := 80, mThread := true, doServerQueued := true }) ∧
    startServer decimalToUInt
        (construct sampleEnv sampleLib 640 480 3 "127.0.0.1:1234".toList .etJPEG 1000) =
      (false,
        { construct sampleEnv sampleLib 640 480 3 "127.0.0.1:1234".toList .etJPEG 1000 with
          mIsError := true }) := by
  decide

/-- C15 fails as stated: a server constructed with zero channels, whose codec
is found and opens, is not in the error state after `startServer` returned
`false`. -/
theorem startServer_zero_channels_no_error :
    (startServer decimalToUInt
      (construct sampleEnv sampleLib 640 480 0 "rtsp://127.0.0.1:1234".toList
        .etJPEG 1000)).1 = false ∧
    (startServer decimalToUInt
      (construct sampleEnv sampleLib 640 480 0 "rtsp://127.0.0.1:1234".toList
        .etJPEG 1000)).2.isError = false ∧
    ¬ (startServer decimalToUInt
      (construct sampleEnv sampleLib 640 480 0 "rtsp://127.0.0.1:1234".toList
        .etJPEG 1000)).2.isError = true := by
  decide

/-- C15 as amended: for a server constructed with width, height or channels
zero, `startServer` returns `false` and changes no member, so the error flag
keeps the value the constructor gave it, and every later `startServer` call
returns `false` as well. -/
theorem startServer_zero_parameters {ε : Type} (env : Env ε) (lib : CodecLib)
    (toUInt : List Char → Nat) (width height channels : Nat) (url : List Char)
    (encType : EncoderType) (bitrate : Nat)
    (h0 : width = 0 ∨ height = 0 ∨ channels = 0) :
    startServer toUInt (construct env lib width height channels url encType bitrate) =
      (false, construct env lib width height channels url encType bitrate) ∧
    (startServer toUInt (construct env lib width height channels url encType bitrate)).2.isError
      = (construct env lib width height channels url encType bitrate).isError ∧
    ∀ k, startServer toUInt
        (Nat.iterate (fun c => (startServer toUInt c).2) k
          (construct env lib width height channels url encType bitrate)) =
      (false, construct env lib width height channels url encType bitrate) := by
  obtain ⟨e1, e2, e3, -⟩ := construct_parameters env lib width height channels url encType bitrate
  have hstep : startServer toUInt (construct env lib width height channels url encType bitrate) =
      (false, construct env lib width height channels url encType bitrate) := by
    apply startServer_unconfigured
    rcases h0 with h | h | h
    · exact Or.inl (by rw [e1, h])
    · exact Or.inr (Or.inl (by rw [e2, h]))
    · exact Or.inr (Or.inr (Or.inl (by rw [e3, h])))
  refine ⟨hstep, by rw [hstep], ?_⟩
  intro k
  induction k with
  | zero => exact hstep
  | succ k ih =>
    rw [Function.iterate_succ_apply, hstep]
    exact ih

/-- Witness for C15 as amended: zero channels on a 640x480 MJPEG server. -/
theorem startServer_zero_parameters_witness :
    ((640 : Nat) = 0 ∨ (480 : Nat) = 0 ∨ (0 : Nat) = 0) ∧
    (startServer decimalToUInt (construct sampleEnv sampleLib 640 480 0
        "rtsp://127.0.0.1:1234".toList .etJPEG 1000) =
      (false, construct sampleEnv sampleLib 640 480 0
        "rtsp://127.0.0.1:1234".toList .etJPEG 1000) ∧
    (startServer decimalToUInt (construct sampleEnv sampleLib 640 480 0
        "rtsp://127.0.0.1:1234".toList .etJPEG 1000)).2.isError
      = (construct sampleEnv sampleLib 640 480 0
        "rtsp://127.0.0.1:1234".toList .etJPEG 1000).isError ∧
    ∀ k, startServer decimalToUInt
        (Nat.iterate (fun c => (startServer decimalToUInt c).2) k
          (construct sampleEnv sampleLib 640 480 0
            "rtsp://127.0.0.1:1234".toList .etJPEG 1000)) =
      (false, construct sampleEnv sampleLib 640 480 0
        "rtsp://127.0.0.1:1234".toList .etJPEG 1000)) :=
  ⟨Or.inr (Or.inr rfl),
    startServer_zero_parameters sampleEnv sampleLib decimalToUInt 640 480 0
      "rtsp://127.0.0.1:1234".toList .etJPEG 1000 (Or.inr (Or.inr rfl))⟩

/-- C17 at a server whose codec opened and whose URL is `127.0.0.1:1234`:
after `startServer` the error flag is set and the message is empty.  The
same holds for a URL without port and for port 0. -/
theorem startServer_error_without_message :
    (construct sampleEnv sampleLib 640 480 3 "127.0.0.1:1234".toList .etJPEG 1000).isError
      = false ∧
    (startServer decimalToUInt
      (construct sampleEnv sampleLib 640 480 3 "127.0.0.1:1234".toList
        .etJPEG 1000)).2.isError = true ∧
    (startServer decimalToUInt
      (construct sampleEnv sampleLib 640 480 3 "127.0.0.1:1234".toList
        .etJPEG 1000)).2.errorStr = [] ∧
    (startServer decimalToUInt
      (construct sampleEnv sampleLib 640 480 3 "rtsp://127.0.0.1".toList
        .etJPEG 1000)).2.isError = true ∧
    (startServer decimalToUInt
      (construct sampleEnv sampleLib 640 480 3 "rtsp://127.0.0.1".toList
        .etJPEG 1000)).2.errorStr = [] ∧
    (startServer decimalToUInt
      (construct sampleEnv sampleLib 640 480 3 "rtsp://127.0.0.1:0".toList
        .etJPEG 1000)).2.isError = true ∧
    (startServer decimalToUInt
      (construct sampleEnv sampleLib 640 480 3 "rtsp://127.0.0.1:0".toList
        .etJPEG 1000)).2.errorStr = [] := by
  decide

/-! ## Value ranges of the colour transform -/

/-- C19 fails as stated: for `r = g = 255`, `b = 0` the U expression is 15,
and for `r = 0`, `g = b = 255` the V expression is 15, below 16. -/
theorem chroma_below_sixteen :
    cbSample 255 255 0 = 15 ∧ crSample 0 255 255 = 15 ∧
    ¬ (16 ≤ cbSample 255 255 0) ∧ ¬ (16 ≤ crSample 0 255 255) := by
  decide

/-- C19 as amended: for `r`, `g`, `b` in 0..255 the luma expression lies in
16..235 and both chroma expressions lie in 15..240, so each byte store keeps
the value, and every product and partial sum fits a signed 32-bit `int`. -/
theorem colour_transform_ranges (r g b : Int) (hr : 0 ≤ r ∧ r ≤ 255) (hg : 0 ≤ g ∧ g ≤ 255)
    (hb : 0 ≤ b ∧ b ≤ 255) :
    (16 ≤ lumaSample r g b ∧ lumaSample r g b ≤ 235) ∧
    (15 ≤ cbSample r g b ∧ cbSample r g b ≤ 240) ∧
    (15 ≤ crSample r g b ∧ crSample r g b ≤ 240) ∧
    ((toByte (lumaSample r g b) : Int) = lumaSample r g b ∧
      (toByte (cbSample r g b) : Int) = cbSample r g b ∧
      (toByte (crSample r g b) : Int) = crSample r g b) ∧
    (fitsInt32 (67316 * r) ∧ fitsInt32 (132154 * g) ∧ fitsInt32 (25666 * b) ∧
      fitsInt32 (67316 * r + 132154 * g) ∧ fitsInt32 (67316 * r + 132154 * g + 25666 * b)) ∧
    (fitsInt32 (-38856 * r) ∧ fitsInt32 (76282 * g) ∧ fitsInt32 (115138 * b) ∧
      fitsInt32 (-38856 * r - 76282 * g) ∧
      fitsInt32 (-38856 * r - 76282 * g + 115138 * b)) ∧
    (fitsInt32 (115138 * r) ∧ fitsInt32 (96414 * g) ∧ fitsInt32 (18724 * b) ∧
      fitsInt32 (115138 * r - 96414 * g) ∧
      fitsInt32 (115138 * r - 96414 * g - 18724 * b)) := by
  have hl := lumaSample_range r g b hr hg hb
  have hu := cbSample_range r g b hr hg hb
  have hv := crSample_range r g b hr hg hb
  refine ⟨hl, hu, hv, ⟨?_, ?_, ?_⟩, ?_, ?_, ?_⟩
  · exact toByte_of_range _ (by omega) (by omega)
  · exact toByte_of_range _ (by omega) (by omega)
  · exact toByte_of_range _ (by omega) (by omega)
  · simp only [fitsInt32]; omega
  · simp only [fitsInt32]; omega
  · simp only [fitsInt32]; omega

/-- Witness for C19 as amended, at `r = g = 255`, `b = 0`. -/
theorem colour_transform_ranges_witness :
    ((0 : Int) ≤ 255 ∧ (255 : Int) ≤ 255) ∧ ((0 : Int) ≤ 0 ∧ (0 : Int) ≤ 255) ∧
    ((16 ≤ lumaSample 255 255 0 ∧ lumaSample 255 255 0 ≤ 235) ∧
    (15 ≤ cbSample 255 255 0 ∧ cbSample 255 255 0 ≤ 240) ∧
    (15 ≤ crSample 255 255 0 ∧ crSample 255 255 0 ≤ 240) ∧
    ((toByte (lumaSample 255 255 0) : Int) = lumaSample 255 255 0 ∧
      (toByte (cbSample 255 255 0) : Int) = cbSample 255 255 0 ∧
      (toByte (crSample 255 255 0) : Int) = crSample 255 255 0) ∧
    (fitsInt32 (67316 * 255) ∧ fitsInt32 (132154 * 255) ∧ fitsInt32 (25666 * 0) ∧
      fitsInt32 (67316 * 255 + 132154 * 255) ∧
      fitsInt32 (67316 * 255 + 132154 * 255 + 25666 * 0)) ∧
    (fitsInt32 (-38856 * 255) ∧ fitsInt32 (76282 * 255) ∧ fitsInt32 (115138 * 0) ∧
      fitsInt32 (-38856 * 255 - 76282 * 255) ∧
      fitsInt32 (-38856 * 255 - 76282 * 255 + 115138 * 0)) ∧
    (fitsInt32 (115138 * 255) ∧ fitsInt32 (96414 * 255) ∧ fitsInt32 (18724 * 0) ∧
      fitsInt32 (115138 * 255 - 96414 * 255) ∧
      fitsInt32 (115138 * 255 - 96414 * 255 - 18724 * 0))) :=
  ⟨⟨by decide, by decide⟩, ⟨by decide, by decide⟩,
    colour_transform_ranges 255 255 0 ⟨by decide, by decide⟩ ⟨by decide, by decide⟩
      ⟨by decide, by decide⟩⟩

/-! ## Fan-out -/

theorem sendPktCalls_loop {ε : Type}
    (sendpkt : List (TcpClient × AVPacket) → TcpClient → AVPacket → Bool) (pkt : AVPacket)
    (l : List TcpClient) : ∀ (s : Server ε) (calls : List (TcpClient × Bool)),
    (l.foldl
        (fun acc c =>
          (({ acc.1 with sent := acc.1.sent ++ [(c, pkt)] } : Server ε),
            acc.2 ++ [(c, sendpkt acc.1.sent c pkt)]))
        (s, calls)).1 = { s with sent := s.sent ++ l.map (fun c => (c, pkt)) } ∧
    ((l.foldl
        (fun acc c =>
          (({ acc.1 with sent := acc.1.sent ++ [(c, pkt)] } : Server ε),
            acc.2 ++ [(c, sendpkt acc.1.sent c pkt)]))
        (s, calls)).2.map (fun e => e.1)) = calls.map (fun e => e.1) ++ l := by
  induction l with
  | nil => intro s calls; simp
  | cons c l ih =>
    intro s calls
    rw [List.foldl_cons]
    obtain ⟨h1, h2⟩ := ih { s with sent := s.sent ++ [(c, pkt)] }
      (calls ++ [(c, sendpkt s.sent c pkt)])
    constructor
    · rw [h1]
      simp [List.append_assoc]
    · rw [h2]
      simp [List.append_assoc]

theorem newConnection_loop {ε : Type} (joined : List TcpClient) :
    ∀ s : Server ε, (joined.foldl newConnection s).mClients = s.mClients ++ joined := by
  induction joined with
  | nil => intro s; simp
  | cons c l ih =>
    intro s
    rw [List.foldl_cons, ih]
    simp [newConnection, List.append_assoc]

/-- C16: whatever the outcome of each `sendpkt` call (any function of the
calls made so far, the client and the packet), `sendPkt` calls `sendpkt` once
per entry of the client set, in the order of the set, with the same packet:
a failing send keeps no later client from being sent the packet.  The order
of the set is the order of the `newConnection` calls.  `sendPkt` changes
neither the client set nor any other member; with a first client whose sends
all fail, the second client is still sent the packet.  After `removeClient`
the same holds for the remaining clients. -/
theorem sendPkt_fan_out {ε : Type}
    (sendpkt : List (TcpClient × AVPacket) → TcpClient → AVPacket → Bool)
    (s : Server ε) (pkt : AVPacket) (gone : TcpClient) (joined : List TcpClient) :
    (sendPktCalls sendpkt s pkt).1 = sendPkt s pkt ∧
    (sendPktCalls sendpkt s pkt).2.map (fun e => e.1) = s.mClients ∧
    (sendPkt s pkt).sent = s.sent ++ s.mClients.map (fun c => (c, pkt)) ∧
    (sendPkt s pkt).mClients = s.mClients ∧
    (sendPkt s pkt).core = s.core ∧
    (∀ i, (sendPkt s pkt).sent[s.sent.length + i]? =
      (s.mClients[i]?).map (fun c => (c, pkt))) ∧
    (joined.foldl newConnection s).mClients = s.mClients ++ joined ∧
    (sendPktCalls sendpkt (joined.foldl newConnection s) pkt).2.map (fun e => e.1) =
      s.mClients ++ joined ∧
    (sendPktCalls (fun _ c _ => decide (c ≠ 7)) (oracleServer [7, 8]) pkt).2 =
      [(7, false), (8, true)] ∧
    (removeClient s gone).mClients = s.mClients.erase gone ∧
    (sendPkt (removeClient s gone) pkt).sent =
      s.sent ++ (s.mClients.erase gone).map (fun c => (c, pkt)) ∧
    (sendPkt (removeClient s gone) pkt).mClients = s.mClients.erase gone := by
  obtain ⟨a1, a2⟩ := sendPktCalls_loop sendpkt pkt s.mClients s []
  obtain ⟨-, b2⟩ := sendPktCalls_loop sendpkt pkt (joined.foldl newConnection s).mClients
    (joined.foldl newConnection s) []
  rw [newConnection_loop] at b2
  refine ⟨by rw [sendPkt_eq]; exact a1, by simpa using a2, by rw [sendPkt_eq],
    by rw [sendPkt_eq], sendPkt_core s pkt, ?_, newConnection_loop joined s, ?_, rfl, rfl,
    by rw [sendPkt_eq]; rfl, by rw [sendPkt_eq]; rfl⟩
  · intro i
    rw [sendPkt_eq]
    show (s.sent ++ s.mClients.map (fun c => (c, pkt)))[s.sent.length + i]? = _
    rw [List.getElem?_append_right (Nat.le_add_right _ _), Nat.add_sub_cancel_left,
      List.getElem?_map]
  · unfold sendPktCalls
    rw [newConnection_loop]
    simpa using b2

/-! ## Drain loop -/

/-- With an encoder that yields `k + 1` packets for the frame,
`encodeWriteFrame` sends the first packet to every client and returns; the
other `k` packets stay in the encoder. -/
theorem encodeWriteFrame_oracle_first_only (k fuel : Nat) (s : Server (List (List Nat)))
    (frame : AVFrame) (hctx : s.mCtx = []) :
    encodeWriteFrame (oracleEnv (k + 1)) (fuel + 1) s frame =
      .ok (sendPkt { s with mCtx := (List.range k).map (fun i => [frame.pts, i + 1]) }
        { pts := frame.pts, data := [frame.pts, 0] }) := by
  have hq : (oracleEnv (k + 1)).avcodec_send_frame s.mCtx frame =
      (0, [frame.pts, 0] :: (List.range k).map (fun i => [frame.pts, i + 1])) := by
    show ((0 : Int), s.mCtx ++ (List.range (k + 1)).map (fun i => [frame.pts, i])) = _
    rw [hctx, List.range_succ_eq_map]
    simp [List.map_map, Function.comp_def]
  simp only [encodeWriteFrame, hq, encodeWriteLoop]
  rfl

/-- With an encoder that yields no packet for the frame, `encodeWriteFrame`
submits the same frame again and again: it does not return within any
iteration budget. -/
theorem encodeWriteFrame_oracle_zero_diverges (fuel : Nat) (s : Server (List (List Nat)))
    (frame : AVFrame) (hctx : s.mCtx = []) :
    encodeWriteFrame (oracleEnv 0) fuel s frame = .error .outOfFuel := by
  have hloop : ∀ (n : Nat) (s1 : Server (List (List Nat))), s1.mCtx = [] →
      encodeWriteLoop (oracleEnv 0) frame n s1 = .error .outOfFuel := by
    intro n
    induction n with
    | zero => intro s1 _; rfl
    | succ n ih =>
      intro s1 h1
      have hr : (oracleEnv 0).avcodec_receive_packet s1.mCtx = (-11, [], []) := by
        rw [h1]; rfl
      simp only [encodeWriteLoop, hr]
      exact ih _ rfl
  have hq : (oracleEnv 0).avcodec_send_frame s.mCtx frame = (0, []) := by
    show ((0 : Int), s.mCtx ++ (List.range 0).map (fun i => [frame.pts, i])) = _
    rw [hctx]; rfl
  simp only [encodeWriteFrame, hq]
  exact hloop fuel _ rfl

/-- C18 fails as stated: with an encoder that yields two packets for the frame
of `pts` 3, `encodeWriteFrame` sends the first packet to the client and
returns with the second packet still in the encoder.  Through
`addInternalFrame`, with three packets and two clients, each client is sent
the first packet only.  With an encoder that yields no packet the function
does not return within any iteration budget. -/
theorem encodeWriteFrame_sends_first_packet_only :
    (match encodeWriteFrame (oracleEnv 2) 5 (oracleServer [7])
        { width := 2, height := 2, pts := 3, data := fun _ => 0 } with
      | .ok s1 => some (s1.sent, s1.mCtx)
      | .error _ => none) =
      some ([(7, { pts := 3, data := [3, 0] })], [[3, 1]]) ∧
    (match addInternalFrame (oracleEnv 3) 5 (oracleServer [7, 8]) (fun _ => 0) with
      | .ok (_, s1) => some (s1.sent, s1.mCtx)
      | .error _ => none) =
      some ([(7, { pts := 0, data := [0, 0] }), (8, { pts := 0, data := [0, 0] })],
        [[0, 1], [0, 2]]) ∧
    (∀ fuel, encodeWriteFrame (oracleEnv 0) fuel (oracleServer [7])
        { width := 2, height := 2, pts := 3, data := fun _ => 0 } = .error .outOfFuel) :=
  ⟨by decide, by decide, fun fuel => encodeWriteFrame_oracle_zero_diverges fuel _ _ rfl⟩

/-- C18 as amended: with an encoder that holds no earlier packet, accepts the
frame and yields `k ≥ 1` packets for it, `encodeWriteFrame` returns after one
pass of its loop, having sent every client exactly one packet, the first of
the `k`, stamped with the `pts` of the frame; the other `k - 1` packets stay
in the encoder, and nothing else of the server changes. -/
theorem encodeWriteFrame_one_packet_per_call (k fuel : Nat) (s : Server (List (List Nat)))
    (frame : AVFrame) (hk : 1 ≤ k) (hfuel : 1 ≤ fuel) (hctx : s.mCtx = []) :
    ∃ s1, encodeWriteFrame (oracleEnv k) fuel s frame = .ok s1 ∧
      s1.sent = s.sent ++ s.mClients.map (fun c => (c, AVPacket.mk frame.pts [frame.pts, 0])) ∧
      s1.mCtx = (List.range (k - 1)).map (fun i => [frame.pts, i + 1]) ∧
      s1.mClients = s.mClients ∧ s1.core = s.core := by
  obtain ⟨k1, rfl⟩ : ∃ k1, k = k1 + 1 := ⟨k - 1, by omega⟩
  obtain ⟨f1, rfl⟩ : ∃ f1, fuel = f1 + 1 := ⟨fuel - 1, by omega⟩
  rw [encodeWriteFrame_oracle_first_only k1 f1 s frame hctx, sendPkt_eq]
  exact ⟨_, rfl, rfl, rfl, rfl, rfl⟩

/-- Witness for C18 as amended: two packets for the frame of `pts` 3, one
client. -/
theorem encodeWriteFrame_one_packet_per_call_witness :
    (1 ≤ 2 ∧ 1 ≤ 5 ∧ (oracleServer [7]).mCtx = []) ∧
    ∃ s1, encodeWriteFrame (oracleEnv 2) 5 (oracleServer [7])
        { width := 2, height := 2, pts := 3, data := fun _ => 0 } = .ok s1 ∧
      s1.sent = (oracleServer [7]).sent ++
        (oracleServer [7]).mClients.map (fun c => (c, AVPacket.mk 3 [3, 0])) ∧
      s1.mCtx = (List.range (2 - 1)).map (fun i => [3, i + 1]) ∧
      s1.mClients = (oracleServer [7]).mClients ∧ s1.core = (oracleServer [7]).core :=
  ⟨⟨by decide, by decide, rfl⟩,
    encodeWriteFrame_one_packet_per_call 2 5 (oracleServer [7])
      { width := 2, height := 2, pts := 3, data := fun _ => 0 } (by decide) (by decide) rfl⟩

/-! ## Small frames through `addBigFrame` -/

theorem addFrame_nSubmitted {ε : Type} (s : Server ε) (buf : Mem) :
    (addFrame s buf).2.nSubmitted = s.nSubmitted + 1 := by
  unfold addFrame
  by_cases h : s.mFrameBuffers.length < s.mMaxFrameBuffers <;>
    by_cases h2 : s.mFrameThread <;> simp [h, h2]

theorem tileBatch_nSubmitted {ε : Type} (env : Env ε) (s : Server ε) (buf : Mem)
    (linesize : Nat) (g : TileGrid) :
    (tileBatch env s buf linesize g).nSubmitted = s.nSubmitted := by
  unfold tileBatch
  simp only [sendPkt_batch_eq]

/-- The tiled branch never has the outcome of an `addFrame` call. -/
theorem addBigFrameTiled_ne_addFrame {ε : Type} (env : Env ε) (s : Server ε) (buf : Mem)
    (linesize : Nat) : addBigFrameTiled env s buf linesize ≠ .ok (addFrame s buf) := by
  unfold addBigFrameTiled
  intro h
  split at h
  · cases h
  · rename_i g hg
    simp only [Except.ok.injEq] at h
    have h1 := congrArg (fun r => r.2.nSubmitted) h
    simp only [tileBatch_nSubmitted, addFrame_nSubmitted] at h1
    omega

/-- The branch of `addBigFrame` taken with a client connected. -/
theorem addBigFrame_branches {ε : Type} (env : Env ε) (s : Server ε) (buf : Mem)
    (linesize : Nat) (hi : s.mIsInitialized = true) (hc : s.mClients ≠ []) :
    addBigFrame env s buf linesize =
      if s.mCodecId ≠ .AV_CODEC_ID_MJPEG
          ∨ (s.mWidth ≤ env.MAX_WIDTH_RTP_JPEG ∧ s.mHeight ≤ env.MAX_HEIGHT_RTP_JPEG)
      then .ok (addFrame s buf) else addBigFrameTiled env s buf linesize := by
  have hguard : (!s.mIsInitialized || s.mClients.isEmpty) = false := by
    cases hcl : s.mClients with
    | nil => exact absurd hcl hc
    | cons a l => simp [hi]
  unfold addBigFrame addBigFrameTiled
  rw [hguard]
  simp only [Bool.false_eq_true, if_false]

/-- C11: on an initialized server with a client whose frame is within the RTP
JPEG size, `addBigFrame(buf, stride)` is `addFrame(buf)` for every stride,
in return value and in state; and with the MJPEG codec the tiled branch is
taken exactly when the width or the height exceeds the RTP JPEG size. -/
theorem addBigFrame_small_is_addFrame {ε : Type} (env : Env ε) (s : Server ε) (buf : Mem)
    (linesize : Nat) (hi : s.mIsInitialized = true) (hc : s.mClients ≠ []) :
    ((s.mWidth ≤ env.MAX_WIDTH_RTP_JPEG ∧ s.mHeight ≤ env.MAX_HEIGHT_RTP_JPEG) →
      addBigFrame env s buf linesize = .ok (addFrame s buf)) ∧
    (s.mCodecId = .AV_CODEC_ID_MJPEG →
      (addBigFrame env s buf linesize = addBigFrameTiled env s buf linesize ↔
        (env.MAX_WIDTH_RTP_JPEG < s.mWidth ∨ env.MAX_HEIGHT_RTP_JPEG < s.mHeight))) := by
  have hb := addBigFrame_branches env s buf linesize hi hc
  constructor
  · intro hsmall
    rw [hb, if_pos (Or.inr hsmall)]
  · intro hm
    constructor
    · intro heq
      by_contra hnb
      have hsmall : s.mWidth ≤ env.MAX_WIDTH_RTP_JPEG ∧ s.mHeight ≤ env.MAX_HEIGHT_RTP_JPEG := by
        omega
      rw [hb, if_pos (Or.inr hsmall)] at heq
      exact addBigFrameTiled_ne_addFrame env s buf linesize heq.symm
    · intro hbig
      have hn : ¬ (s.mCodecId ≠ .AV_CODEC_ID_MJPEG
          ∨ (s.mWidth ≤ env.MAX_WIDTH_RTP_JPEG ∧ s.mHeight ≤ env.MAX_HEIGHT_RTP_JPEG)) := by
        rintro (h | h)
        · exact h hm
        · omega
      rw [hb, if_neg hn]

/-- Witness for C11: a 640x480 MJPEG server with one client, RTP JPEG size
640x480. -/
theorem addBigFrame_small_is_addFrame_witness :
    ((sampleServer 640 480 5 [7]).mIsInitialized = true ∧
      (sampleServer 640 480 5 [7]).mClients ≠ []) ∧
    (((sampleServer 640 480 5 [7]).mWidth ≤ sampleEnv.MAX_WIDTH_RTP_JPEG ∧
        (sampleServer 640 480 5 [7]).mHeight ≤ sampleEnv.MAX_HEIGHT_RTP_JPEG) →
      addBigFrame sampleEnv (sampleServer 640 480 5 [7]) (fun _ => 0) 1920 =
        .ok (addFrame (sampleServer 640 480 5 [7]) (fun _ => 0))) ∧
    ((sampleServer 640 480 5 [7]).mCodecId = .AV_CODEC_ID_MJPEG →
      (addBigFrame sampleEnv (sampleServer 640 480 5 [7]) (fun _ => 0) 1920 =
          addBigFrameTiled sampleEnv (sampleServer 640 480 5 [7]) (fun _ => 0) 1920 ↔
        (sampleEnv.MAX_WIDTH_RTP_JPEG < (sampleServer 640 480 5 [7]).mWidth ∨
          sampleEnv.MAX_HEIGHT_RTP_JPEG < (sampleServer 640 480 5 [7]).mHeight))) :=
  ⟨⟨rfl, by decide⟩,
    addBigFrame_small_is_addFrame sampleEnv (sampleServer 640 480 5 [7]) (fun _ => 0) 1920
      rfl (by decide)⟩

/-! ## Tile coordinates handed to `setHeader` -/

/-- The `setHeader` call of tile `t`: the packet holds the payload followed by
`sizeof_header` more bytes, the pointer is `size - sizeof_header - 2` bytes
into the packet, and the coordinates are `t % cntW` and `t / cntW` cast to
`uchar`. -/
theorem tilePacket_setHeader_call {ε : Type} (env : Env ε) (s : Server ε) (cntW cntH : Nat)
    (mData : List Mem) (t : Nat) :
    (tilePacket env s cntW cntH mData t).2.data =
      env.setHeader
        ((tilePacket env s cntW cntH mData t).1 ++ List.replicate env.sizeof_header 0)
        ((((tilePacket env s cntW cntH mData t).1.length + env.sizeof_header : Nat) : Int)
          - env.sizeof_header - 2)
        (t % cntW % 256) (t / cntW % 256) cntW cntH s.mWidth s.mHeight := rfl

/-- C3 fails as stated: a 164480x480 frame with 640x480 tiles has a grid of
257 columns and one row; tile 256 has column 256, but the column handed to
`setHeader` for its trailer is 0, the same as for tile 0. -/
theorem tile_column_wraps_at_256 :
    (∃ sizes, tileGrid 164480 480 640 480 = some ⟨257, 1, sizes⟩) ∧
    (256 < 257 * 1 ∧ 256 % 257 = 256 ∧ 256 / 257 = 0) ∧
    (tilePacket probeEnv (sampleServer 164480 480 5 [7]) 257 1 [] 256).2.data =
      [0, 0, 257, 1, 164480, 480] ∧
    (tilePacket probeEnv (sampleServer 164480 480 5 [7]) 257 1 [] 0).2.data =
      [0, 0, 257, 1, 164480, 480] ∧
    (∀ (ε : Type) (env : Env ε) (s : Server ε) (mData : List Mem),
      (tilePacket env s 257 1 mData 256).2.data =
        env.setHeader
          ((tilePacket env s 257 1 mData 256).1 ++ List.replicate env.sizeof_header 0)
          ((((tilePacket env s 257 1 mData 256).1.length + env.sizeof_header : Nat) : Int)
            - env.sizeof_header - 2)
          0 0 257 1 s.mWidth s.mHeight) := by
  refine ⟨?_, by decide, by decide, by decide, fun _ _ _ _ => rfl⟩
  obtain ⟨sizes, hg, -, -⟩ := tileGrid_spec 164480 480 640 480 (by decide) (by decide)
  have hw : ceilDiv 164480 640 = 257 := by decide
  have hh : ceilDiv 480 480 = 1 := by decide
  rw [hw, hh] at hg
  exact ⟨sizes, hg⟩

/-- C3 as amended: tiles are laid out row-major at the nominal size and
clipped at the right and bottom edge: tile `t` has column `t % cntW < cntW`,
row `t / cntW < cntH`, origin `(col * MAX_WIDTH_JPEG, row * MAX_HEIGHT_JPEG)`,
width `min(MAX_WIDTH_JPEG, W - x)` and height `min(MAX_HEIGHT_JPEG, H - y)`.
The coordinates `addBigFrame` hands to `setHeader` for the trailer of tile `t`
are `col mod 256` and `row mod 256`; they are `col` and `row` when the grid
has at most 256 columns and at most 256 rows. -/
theorem tile_layout_and_coordinates {ε : Type} (env : Env ε) (s : Server ε)
    (mData : List Mem) (hMW : 1 ≤ env.MAX_WIDTH_JPEG) (hMH : 1 ≤ env.MAX_HEIGHT_JPEG) :
    ∃ g, tileGrid s.mWidth s.mHeight env.MAX_WIDTH_JPEG env.MAX_HEIGHT_JPEG = some g ∧
      g.sizes.length = g.cntW * g.cntH ∧
      ∀ t, t < g.cntW * g.cntH →
        t % g.cntW < g.cntW ∧ t / g.cntW < g.cntH ∧
        g.sizes[t]? = some
          ⟨t % g.cntW * env.MAX_WIDTH_JPEG, t / g.cntW * env.MAX_HEIGHT_JPEG,
           min env.MAX_WIDTH_JPEG (s.mWidth - t % g.cntW * env.MAX_WIDTH_JPEG),
           min env.MAX_HEIGHT_JPEG (s.mHeight - t / g.cntW * env.MAX_HEIGHT_JPEG)⟩ ∧
        (tilePacket env s g.cntW g.cntH mData t).2.data =
          env.setHeader
            ((tilePacket env s g.cntW g.cntH mData t).1 ++
              List.replicate env.sizeof_header 0)
            ((((tilePacket env s g.cntW g.cntH mData t).1.length + env.sizeof_header : Nat)
              : Int) - env.sizeof_header - 2)
            (t % g.cntW % 256) (t / g.cntW % 256) g.cntW g.cntH s.mWidth s.mHeight ∧
        (g.cntW ≤ 256 → t % g.cntW % 256 = t % g.cntW) ∧
        (g.cntH ≤ 256 → t / g.cntW % 256 = t / g.cntW) := by
  obtain ⟨g, hg, hlen, hall⟩ := tileGrid_row_major s.mWidth s.mHeight env.MAX_WIDTH_JPEG
    env.MAX_HEIGHT_JPEG hMW hMH
  refine ⟨g, hg, hlen, ?_⟩
  intro t ht
  obtain ⟨hc, hr, hs⟩ := hall t ht
  refine ⟨hc, hr, hs, tilePacket_setHeader_call env s g.cntW g.cntH mData t, ?_, ?_⟩
  · intro hw
    exact Nat.mod_eq_of_lt (by omega)
  · intro hh
    exact Nat.mod_eq_of_lt (by omega)

/-- Witness for C3 as amended, the 1920x1080 frame with 640x480 tiles: a 3x3
grid whose tiles are all 640 wide and whose last row is 120 high; tile 5 is
handed the coordinates (2, 1). -/
theorem tile_layout_and_coordinates_witness :
    (1 ≤ sampleEnv.MAX_WIDTH_JPEG ∧ 1 ≤ sampleEnv.MAX_HEIGHT_JPEG) ∧
    tileGrid 1920 1080 640 480 = some ⟨3, 3,
      [⟨0, 0, 640, 480⟩, ⟨640, 0, 640, 480⟩, ⟨1280, 0, 640, 480⟩,
       ⟨0, 480, 640, 480⟩, ⟨640, 480, 640, 480⟩, ⟨1280, 480, 640, 480⟩,
       ⟨0, 960, 640, 120⟩, ⟨640, 960, 640, 120⟩, ⟨1280, 960, 640, 120⟩]⟩ ∧
    (tilePacket probeEnv (sampleServer 1920 1080 5 [7]) 3 3 [] 5).2.data =
      [2, 1, 3, 3, 1920, 1080] ∧
    ∃ g, tileGrid (sampleServer 1920 1080 5 [7]).mWidth (sampleServer 1920 1080 5 [7]).mHeight
        sampleEnv.MAX_WIDTH_JPEG sampleEnv.MAX_HEIGHT_JPEG = some g ∧
      g.sizes.length = g.cntW * g.cntH ∧
      ∀ t, t < g.cntW * g.cntH →
        t % g.cntW < g.cntW ∧ t / g.cntW < g.cntH ∧
        g.sizes[t]? = some
          ⟨t % g.cntW * sampleEnv.MAX_WIDTH_JPEG, t / g.cntW * sampleEnv.MAX_HEIGHT_JPEG,
           min sampleEnv.MAX_WIDTH_JPEG
             ((sampleServer 1920 1080 5 [7]).mWidth - t % g.cntW * sampleEnv.MAX_WIDTH_JPEG),
           min sampleEnv.MAX_HEIGHT_JPEG
             ((sampleServer 1920 1080 5 [7]).mHeight
               - t / g.cntW * sampleEnv.MAX_HEIGHT_JPEG)⟩ ∧
        (tilePacket sampleEnv (sampleServer 1920 1080 5 [7]) g.cntW g.cntH [] t).2.data =
          sampleEnv.setHeader
            ((tilePacket sampleEnv (sampleServer 1920 1080 5 [7]) g.cntW g.cntH [] t).1 ++
              List.replicate sampleEnv.sizeof_header 0)
            ((((tilePacket sampleEnv (sampleServer 1920 1080 5 [7]) g.cntW g.cntH [] t).1.length
              + sampleEnv.sizeof_header : Nat) : Int) - sampleEnv.sizeof_header - 2)
            (t % g.cntW % 256) (t / g.cntW % 256) g.cntW g.cntH
            (sampleServer 1920 1080 5 [7]).mWidth (sampleServer 1920 1080 5 [7]).mHeight ∧
        (g.cntW ≤ 256 → t % g.cntW % 256 = t % g.cntW) ∧
        (g.cntH ≤ 256 → t / g.cntW % 256 = t / g.cntW) :=
  ⟨⟨by decide, by decide⟩, by decide, by decide,
    tile_layout_and_coordinates sampleEnv (sampleServer 1920 1080 5 [7]) [] (by decide)
      (by decide)⟩

end RTSPStreamerServer

